import Mathlib

/-!
Shallow embedding of `src/lib/autokey/qtui/centralwidget.py` (the
`CentralWidget` tree/model synchronizer and the `ListWidgetHandler`
bounded log mirror) and proofs about it.

Domain entities (`model.Folder` / `model.Phrase` / `model.Script`) are
represented in an id-indexed store: Python object identity becomes a
`Nat` id, attribute mutation becomes a store update.  Collaborator
capabilities (monitor suspend/resume, persistence, hotkey registry,
config-altered notification, presentation selection) are recorded as an
ordered event trace, mirroring the order of calls in the source.
GUI-only plumbing (dialog construction, icons, widget styling) is out of
scope and not represented.
-/

namespace AutokeyCentral

/-- Kind tag for `model.Folder` / `model.Phrase` / `model.Script`. -/
inductive EntityKind where
  | folder
  | phrase
  | script
deriving DecidableEq, Repr

/-- `model.TriggerMode` members relevant here (`HOTKEY` and the rest). -/
inductive TriggerMode where
  | abbreviation
  | hotkey
  | predictive
deriving DecidableEq, Repr

/-- One domain entity: the attributes of `model.Folder`/`Phrase`/`Script`
used by `centralwidget.py`: title/description, parent back-reference,
ordered child folder list and child leaf list (meaningful for folders),
optional on-disk `path`, and the trigger `modes` set. -/
structure Entity where
  kind : EntityKind
  title : String
  parent : Option Nat
  folders : List Nat
  items : List Nat
  path : Option String
  modes : List TriggerMode
deriving DecidableEq, Repr

/-- The object store: Python heap objects indexed by id. -/
abbrev Store := List (Nat × Entity)

/-- Dereference an id (Python attribute access on a live object). -/
def lookupE : Store → Nat → Option Entity
  | [], _ => none
  | (a, e) :: t, i => if a = i then some e else lookupE t i

/-- Mutate the attributes of the object with id `i`. -/
def updateE : Store → Nat → (Entity → Entity) → Store
  | [], _, _ => []
  | (a, e) :: t, i, f =>
    if a = i then (a, f e) :: updateE t i f else (a, e) :: updateE t i f

/-- An id unused by the store (a freshly allocated Python object). -/
def freshId (s : Store) : Nat :=
  (s.map Prod.fst).foldr max 0 + 1

/-- Calls made to collaborator capabilities, in source order. -/
inductive Event where
  | suspend
  | unsuspend
  | persist (i : Nat)
  | configAltered (full : Bool)
  | hotkeyRemoved (i : Nat)
  | removeData (i : Nat)
  | sortAscending
  | setCurrent (i : Nat)
  | addSelect (i : Nat)
  | reselect
  | revertLabel
  | enterRename
deriving DecidableEq, Repr

/-- The synchronizer state: the object store, `configManager.folders`
(root folder ids) and `self.cutCopiedItems` (clipboard buffer). -/
structure AppState where
  store : Store
  rootFolders : List Nat
  cutCopied : List Nat
deriving DecidableEq, Repr

/-! ### Collaborator primitives from `autokey.model` (not part of this
source file); modelled from the spec where the source does not show
them. -/

/-- Modelled from the spec: `Folder.add_folder` (autokey.model, §3 data
model) — sets the child folder's parent back-reference to this folder
and appends it to the ordered child folder list.  (It does not touch
`path`: the synchronizer clears paths explicitly in `move_items` /
`__moveRecurseUpdate`.) -/
def add_folder (s : Store) (parentId childId : Nat) : Store :=
  updateE (updateE s childId (fun e => { e with parent := some parentId }))
    parentId (fun e => { e with folders := e.folders ++ [childId] })

/-- Modelled from the spec: `Folder.add_item` (autokey.model, §3 data
model) — sets the leaf's owning-folder back-reference and appends it to
the ordered child leaf list. -/
def add_item (s : Store) (parentId childId : Nat) : Store :=
  updateE (updateE s childId (fun e => { e with parent := some parentId }))
    parentId (fun e => { e with items := e.items ++ [childId] })

/-- Modelled from the spec: `Folder.remove_folder` (autokey.model) —
removes the child folder from the ordered child folder list. -/
def remove_folder (s : Store) (parentId childId : Nat) : Store :=
  updateE s parentId (fun e => { e with folders := e.folders.erase childId })

/-- Modelled from the spec: `Folder.remove_item` (autokey.model) —
removes the leaf from the ordered child leaf list. -/
def remove_item (s : Store) (parentId childId : Nat) : Store :=
  updateE s parentId (fun e => { e with items := e.items.erase childId })

/-- Modelled from the spec: `new_obj.copy(source)` after constructing
`Phrase('', '')` / `Script('', '')` (§4.1 Copy) — a fresh leaf of the
requested kind deep-copying the content fields, with no parent and no
on-disk path. -/
def copyFields (src : Entity) (newKind : EntityKind) : Entity :=
  { kind := newKind, title := src.title, parent := none, folders := [],
    items := [], path := none, modes := src.modes }

/-- Modelled from the spec: the derived on-disk location of an entity,
recomputed from the owning folder's location and the entity's title
(`rebuild_item_path`, §3 "persistence recomputes it from the new
location"). -/
def derivedPath (s : Store) (i : Nat) : Option String :=
  match lookupE s i with
  | none => none
  | some e =>
    match e.parent with
    | none => some ("/" ++ e.title)
    | some p =>
      match lookupE s p with
      | some pe => some (pe.path.getD "" ++ "/" ++ e.title)
      | none => none

/-! ### `CentralWidget.__deleteHotkeys`

Recursion over the live object graph; the recursion depth is bounded by
a fuel argument (call sites pass one more than the store size, which
dominates the depth of any tree laid out in the store). -/

/-- `CentralWidget.__deleteHotkeys`: report the entity to the hotkey
registry when `HOTKEY` is among its modes, then, for folders, recurse
into every child folder and check every child leaf. -/
def deleteHotkeys : Nat → Store → Nat → List Event
  | 0, _, _ => []
  | fuel + 1, s, i =>
    match lookupE s i with
    | none => []
    | some e =>
      (if TriggerMode.hotkey ∈ e.modes then [Event.hotkeyRemoved i] else []) ++
      (if e.kind = EntityKind.folder then
        (e.folders.map (fun j => deleteHotkeys fuel s j)).flatten ++
        (e.items.filterMap fun j =>
          match lookupE s j with
          | some c =>
            if TriggerMode.hotkey ∈ c.modes then some (Event.hotkeyRemoved j)
            else none
          | none => none)
      else [])

/-! ### `CentralWidget.__removeItem` and the operations built on it -/

/-- `CentralWidget.__removeItem`: unregister hotkeys of the entity (and,
for a folder, of its whole subtree), detach the entity from the root
folder list (top level) or from its parent folder (otherwise), remove
its persisted data, re-sort, and re-select a neighbouring node.  The
widget-item bookkeeping (`takeTopLevelItem`/`removeChild`) mirrors the
entity-side detach and is represented by the same state change. -/
def removeItem (st : AppState) (i : Nat) : AppState × List Event :=
  match lookupE st.store i with
  | none => (st, [])
  | some e =>
    let ev1 := deleteHotkeys (st.store.length + 1) st.store i
    let st1 :=
      match e.parent with
      | none => { st with rootFolders := st.rootFolders.erase i }
      | some p =>
        if e.kind = EntityKind.folder then
          { st with store := remove_folder st.store p i }
        else
          { st with store := remove_item st.store p i }
    (st1, ev1 ++ [Event.removeData i, Event.sortAscending, Event.reselect])

/-- The removal loop shared by `on_cut`, `on_delete` and `move_items`. -/
def removeItems (st : AppState) : List Nat → AppState × List Event
  | [] => (st, [])
  | i :: is' =>
    let r := removeItem st i
    let rest := removeItems r.1 is'
    (rest.1, r.2 ++ rest.2)

/-- The selection filter used by `on_cut` and `move_items`:
`[f for f in source_items if f.parent() not in source_items]`. -/
def topLevelFilter (s : Store) (sel : List Nat) : List Nat :=
  sel.filter fun i =>
    match lookupE s i with
    | some e =>
      match e.parent with
      | some p => !sel.contains p
      | none => true
    | none => true

/-- `CentralWidget.__getSelection`: the entities behind the selected
widget items, dropping any entity whose parent is also among them. -/
def getSelection (s : Store) (sel : List Nat) : List Nat :=
  sel.filter fun i =>
    match lookupE s i with
    | some e =>
      match e.parent with
      | some p => !sel.contains p
      | none => true
    | none => true

/-- `CentralWidget.on_cut`: stage the (top-level-filtered) selection in
the clipboard buffer by reference, then remove the top-level-filtered
widget items. -/
def on_cut (st : AppState) (sel : List Nat) : AppState × List Event :=
  let st0 := { st with cutCopied := getSelection st.store sel }
  let result := topLevelFilter st0.store sel
  let r := removeItems st0 result
  (r.1, Event.suspend :: r.2 ++ [Event.unsuspend, Event.configAltered false])

/-- `CentralWidget.on_delete`: suspend the monitor, show the
confirmation dialog, and on an affirmative answer pass every selected
widget item — unfiltered — to `__removeItem`; resume the monitor, then
notify the host when something was deleted. -/
def on_delete (st : AppState) (sel : List Nat) (confirmYes : Bool) :
    AppState × List Event :=
  if confirmYes then
    let r := removeItems st sel
    (r.1, Event.suspend :: r.2 ++ [Event.unsuspend, Event.configAltered false])
  else
    (st, [Event.suspend, Event.unsuspend])

/-! ### `on_copy`, `on_paste`, `move_items`, rename, folder creation -/

/-- The `for source in source_objects` loop of `CentralWidget.on_copy`:
a selected `Phrase` is duplicated as a fresh `Phrase`, anything else as
a fresh `Script`; the duplicate is appended to the clipboard buffer. -/
def copyLoop (st : AppState) : List Nat → AppState
  | [] => st
  | srcId :: rest =>
    match lookupE st.store srcId with
    | none => copyLoop st rest
    | some src =>
      let k := if src.kind = EntityKind.phrase then EntityKind.phrase
               else EntityKind.script
      let nid := freshId st.store
      copyLoop
        { st with
          store := st.store ++ [(nid, copyFields src k)],
          cutCopied := st.cutCopied ++ [nid] } rest

/-- `CentralWidget.on_copy`: duplicate each entity behind the filtered
selection into the clipboard buffer. -/
def on_copy (st : AppState) (sel : List Nat) : AppState :=
  copyLoop st (getSelection st.store sel)

/-- The `for item in self.cutCopiedItems` loop of
`CentralWidget.on_paste`: each staged entity is attached under the
target (folders via `add_folder`, leaves via `add_item`), persisted, and
its new widget item collected.  A dangling reference stops the loop with
a failure, mirroring a Python exception. -/
def pasteLoop (s : Store) (parentId : Nat) :
    List Nat → List Event × Option (Store × List Nat)
  | [] => ([], some (s, []))
  | i :: rest =>
    match lookupE s i with
    | none => ([], none)
    | some e =>
      let s' := if e.kind = EntityKind.folder then add_folder s parentId i
                else add_item s parentId i
      let r := pasteLoop s' parentId rest
      (Event.persist i :: r.1,
       r.2.map (fun p => (p.1, i :: p.2)))

/-- `CentralWidget.on_paste`: suspend the monitor, attach and persist
every staged entity under the selected target folder, re-sort, set the
current item to `new_items[-1]` (an out-of-range access when the
clipboard was empty — the result is `none` and the resume is never
reached), clear the clipboard, select every pasted item, resume the
monitor and notify the host. -/
def on_paste (st : AppState) (parentId : Nat) : Option AppState × List Event :=
  let r := pasteLoop st.store parentId st.cutCopied
  match r.2 with
  | none => (none, Event.suspend :: r.1)
  | some p =>
    match p.2.getLast? with
    | none =>
      (none, Event.suspend :: r.1 ++ [Event.sortAscending])
    | some lastItem =>
      (some { st with store := p.1, cutCopied := [] },
       Event.suspend :: r.1 ++
         [Event.sortAscending, Event.setCurrent lastItem] ++
         p.2.map Event.addSelect ++
         [Event.unsuspend, Event.configAltered false])

/-- The `for child in folder.items` loop of `__moveRecurseUpdate`:
clear each leaf's path and persist it. -/
def clearPersistItems (s : Store) : List Nat → Store × List Event
  | [] => (s, [])
  | j :: js =>
    let s1 := updateE s j (fun e => { e with path := none })
    let rest := clearPersistItems s1 js
    (rest.1, Event.persist j :: rest.2)

/-- `CentralWidget.__moveRecurseUpdate`: clear the folder's path and
persist it, recurse into every child folder, then clear and persist
every child leaf.  Fuel bounds the object-graph recursion depth. -/
def moveRecurseUpdate : Nat → Store → Nat → Store × List Event
  | 0, s, _ => (s, [])
  | fuel + 1, s, i =>
    match lookupE s i with
    | none => (s, [])
    | some e =>
      let s1 := updateE s i (fun e' => { e' with path := none })
      let r2 := e.folders.foldl
        (fun acc j =>
          let r := moveRecurseUpdate fuel acc.1 j
          (r.1, acc.2 ++ r.2))
        (s1, ([] : List Event))
      let r3 := clearPersistItems r2.1 e.items
      (r3.1, Event.persist i :: r2.2 ++ r3.2)

/-- The `for subfolder in folder.folders` loop of `__moveRecurseUpdate`,
written as plain recursion over the list (equal to the fold inside
`moveRecurseUpdate`). -/
def moveRecurseUpdateList (fuel : Nat) : Store → List Nat → Store × List Event
  | s, [] => (s, [])
  | s, j :: js =>
    let r := moveRecurseUpdate fuel s j
    let rest := moveRecurseUpdateList fuel r.1 js
    (rest.1, r.2 ++ rest.2)

/-- One iteration of the `for source in result` loop of
`CentralWidget.move_items`: detach the source via `__removeItem`, then
re-attach it under the target — folders through `add_folder` followed by
`__moveRecurseUpdate`, leaves through `add_item` followed by clearing
the path and persisting. -/
def moveStep (st : AppState) (targetId srcId : Nat) : AppState × List Event :=
  let r0 := removeItem st srcId
  match lookupE r0.1.store srcId with
  | none => r0
  | some e =>
    if e.kind = EntityKind.folder then
      let s1 := add_folder r0.1.store targetId srcId
      let r2 := moveRecurseUpdate (s1.length + 1) s1 srcId
      ({ r0.1 with store := r2.1 }, r0.2 ++ r2.2)
    else
      let s1 := add_item r0.1.store targetId srcId
      let s2 := updateE s1 srcId (fun e' => { e' with path := none })
      ({ r0.1 with store := s2 }, r0.2 ++ [Event.persist srcId])

/-- The full `for source in result` loop of `move_items`. -/
def moveLoop (st : AppState) (targetId : Nat) : List Nat → AppState × List Event
  | [] => (st, [])
  | i :: is' =>
    let r := moveStep st targetId i
    let rest := moveLoop r.1 targetId is'
    (rest.1, r.2 ++ rest.2)

/-- `CentralWidget.move_items`: top-level-filter the dragged widget
items, suspend the monitor, move each filtered source under the target,
resume, re-sort and notify the host of a full reload. -/
def move_items (st : AppState) (sel : List Nat) (targetId : Nat) :
    AppState × List Event :=
  let result := topLevelFilter st.store sel
  let r := moveLoop st targetId result
  (r.1, Event.suspend :: r.2 ++
    [Event.unsuspend, Event.sortAscending, Event.configAltered true])

/-- `CentralWidget.on_treeWidget_itemChanged` for the selected item in
column 0 (the rename handler).  An empty new name fails validation
(modelled from the spec: the empty-field rule rejects an empty name):
the widget label is reverted (`item.update()`) and nothing else happens.
Otherwise the title is set, the derived path rebuilt, the page saved
(`persistGlobal` is the value returned by the page's `save()`), the host
notified and the siblings re-sorted ascending. -/
def on_treeWidget_itemChanged (st : AppState) (i : Nat) (newText : String)
    (persistGlobal : Bool) : AppState × List Event :=
  if newText.isEmpty then
    (st, [Event.revertLabel])
  else
    match lookupE st.store i with
    | none => (st, [])
    | some _ =>
      let s1 := updateE st.store i (fun e => { e with title := newText })
      let s2 := updateE s1 i (fun e => { e with path := derivedPath s1 i })
      ({ st with store := s2 },
       [Event.suspend, Event.persist i, Event.unsuspend,
        Event.configAltered persistGlobal, Event.sortAscending])

/-- `CentralWidget.__createFolder`: allocate the new `Folder` object and
its widget item, suspend the monitor, attach the folder (under the
parent, or at top level into `configManager.folders`), persist it,
resume, re-sort, select it and enter rename mode. -/
def createFolder (st : AppState) (parentId : Option Nat) :
    AppState × List Event :=
  let nid := freshId st.store
  let folder : Entity :=
    { kind := EntityKind.folder, title := "New Folder", parent := none,
      folders := [], items := [], path := none, modes := [] }
  let st1 :=
    match parentId with
    | some p =>
      { st with store := add_folder (st.store ++ [(nid, folder)]) p nid }
    | none =>
      { st with store := st.store ++ [(nid, folder)],
                rootFolders := st.rootFolders ++ [nid] }
  (st1, [Event.suspend, Event.persist nid, Event.unsuspend,
         Event.sortAscending, Event.setCurrent nid, Event.enterRename])

/-- The three answers of the "Create folder in the default location?"
dialog in `on_new_topfolder`. -/
inductive DialogChoice where
  | yes
  | no
  | cancel
deriving DecidableEq, Repr

/-- `os.path.basename`: the last path component. -/
def basename (p : String) : String :=
  (p.splitOn "/").getLastD ""

/-- `CentralWidget.on_new_topfolder`: ask where to create the folder,
suspend the monitor, then: on Yes run `__createFolder(None)` (which
suspends and resumes on its own — the outer suspend of this handler is
never matched on that path); on No ("create elsewhere") create a folder
at the chosen directory (if any) and resume; on Cancel just resume.
`chosenDir` is the directory-chooser result, `none` meaning the chooser
was dismissed (the empty string in the source). -/
def on_new_topfolder (st : AppState) (choice : DialogChoice)
    (chosenDir : Option String) : AppState × List Event :=
  match choice with
  | DialogChoice.yes =>
    let r := createFolder st none
    (r.1, Event.suspend :: r.2)
  | DialogChoice.no =>
    match chosenDir with
    | some path =>
      let nid := freshId st.store
      let folder : Entity :=
        { kind := EntityKind.folder, title := basename path, parent := none,
          folders := [], items := [], path := some path, modes := [] }
      ({ st with store := st.store ++ [(nid, folder)],
                 rootFolders := st.rootFolders ++ [nid] },
       [Event.suspend, Event.configAltered true, Event.unsuspend])
    | none =>
      (st, [Event.suspend, Event.unsuspend])
  | DialogChoice.cancel =>
    (st, [Event.suspend, Event.unsuspend])

/-! ### Tree-shaped layouts in the store

The recursive operations (`__deleteHotkeys`, `__moveRecurseUpdate`) walk
the folder/leaf object graph.  An `ETree` describes a folder subtree as
laid out in the store: a folder id, the subtrees of its child folders,
and the ids of its child leaves.  `representsB` checks that the store
matches a description. -/

/-- A description of a folder subtree: folder id, child folder
subtrees, child leaf ids. -/
inductive ETree where
  | node (id : Nat) (folders : List ETree) (items : List Nat)
deriving Repr

/-- The root folder id of a subtree description. -/
def ETree.rootId : ETree → Nat
  | .node i _ _ => i

mutual

/-- All ids in a subtree description: the folder itself, everything in
its child folder subtrees, and its child leaves. -/
def ETree.ids : ETree → List Nat
  | .node i fs its => i :: (ETree.idsList fs ++ its)

/-- `ETree.ids` over a list of subtrees. -/
def ETree.idsList : List ETree → List Nat
  | [] => []
  | t :: ts => ETree.ids t ++ ETree.idsList ts

end

mutual

/-- Nesting depth of a subtree description. -/
def ETree.height : ETree → Nat
  | .node _ fs _ => ETree.heightList fs + 1

/-- Maximum `ETree.height` over a list of subtrees. -/
def ETree.heightList : List ETree → Nat
  | [] => 0
  | t :: ts => max (ETree.height t) (ETree.heightList ts)

end

mutual

/-- Does the store lay out this folder subtree?  The folder id must
resolve to a folder entity whose child folder list is exactly the roots
of the described subtrees and whose child leaf list is exactly the
described leaves; recursively for the subtrees; each leaf id must
resolve to a non-folder entity.  (Paths, titles, modes and parent
back-references are deliberately unconstrained.) -/
def representsB (s : Store) : ETree → Bool
  | .node i fs its =>
    (match lookupE s i with
     | some e =>
       e.kind = EntityKind.folder && e.folders = fs.map ETree.rootId &&
       e.items = its
     | none => false) &&
    representsListB s fs &&
    its.all (fun j =>
      match lookupE s j with
      | some e => e.kind ≠ EntityKind.folder
      | none => false)

/-- `representsB` over a list of subtrees. -/
def representsListB (s : Store) : List ETree → Bool
  | [] => true
  | t :: ts => representsB s t && representsListB s ts

end

/-- Description of one source of a `move_items` call: a leaf id or a
folder subtree, together with the parent folder it is detached from
(`none` for a top-level folder). -/
inductive SrcDesc where
  | leafSrc (i : Nat) (oldParent : Option Nat)
  | folderSrc (t : ETree) (oldParent : Option Nat)
deriving Repr

/-- The id a source description moves. -/
def SrcDesc.srcId : SrcDesc → Nat
  | .leafSrc i _ => i
  | .folderSrc t _ => t.rootId

/-- The old parent a source description detaches from. -/
def SrcDesc.oldP : SrcDesc → Option Nat
  | .leafSrc _ p => p
  | .folderSrc _ p => p

/-- Every id a source description covers (the whole subtree for a
folder source). -/
def SrcDesc.allIds : SrcDesc → List Nat
  | .leafSrc i _ => [i]
  | .folderSrc t _ => t.ids

/-- Does the store match a source description of a `move_items` call?
Checks the entity kind, the recorded old parent, the subtree layout for
folder sources, and that the source occurs at most once in the child
list (or root folder list) it is about to be erased from. -/
def descOkB (st : AppState) (d : SrcDesc) : Bool :=
  (match d with
   | .leafSrc i op =>
     (match lookupE st.store i with
      | some e => e.kind ≠ EntityKind.folder && e.parent = op
      | none => false)
   | .folderSrc t op =>
     representsB st.store t &&
     (match lookupE st.store t.rootId with
      | some e => e.parent = op
      | none => false)) &&
  (match d.oldP with
   | none => st.rootFolders.count d.srcId ≤ 1
   | some p =>
     match lookupE st.store p with
     | some pe =>
       (match d with
        | .leafSrc _ _ => pe.items.count d.srcId ≤ 1
        | .folderSrc _ _ => pe.folders.count d.srcId ≤ 1)
     | none => false)

/-- The shape of an entity as far as tree layout is concerned: its
kind, child folder list and child leaf list. -/
def eShape (e : Entity) : EntityKind × List Nat × List Nat :=
  (e.kind, e.folders, e.items)

/-- Pre-state facts `move_items` relies on for one source: the store
matches the description (kind, subtree layout, recorded old parent,
fitting recursion depth) and the source occurs at most once in the
child list (or root list) it will be erased from. -/
def curOk (st : AppState) (d : SrcDesc) : Prop :=
  (match d with
   | SrcDesc.leafSrc i op =>
     ∃ e, lookupE st.store i = some e ∧ e.kind ≠ EntityKind.folder ∧
       e.parent = op
   | SrcDesc.folderSrc t op =>
     representsB st.store t = true ∧ t.height ≤ st.store.length + 1 ∧
     ∃ e, lookupE st.store t.rootId = some e ∧ e.parent = op) ∧
  (match d.oldP with
   | none => st.rootFolders.count d.srcId ≤ 1
   | some p => ∃ pe, lookupE st.store p = some pe ∧
       (match d with
        | SrcDesc.leafSrc _ _ => pe.items.count d.srcId ≤ 1
        | SrcDesc.folderSrc _ _ => pe.folders.count d.srcId ≤ 1))

/-- Post-state facts for one moved source: re-parented under the
target and listed among its children, detached from the old location,
its path (and, for a folder, every subtree path) cleared, and a persist
call recorded for it (for a folder: for every subtree entity). -/
def donePost (st : AppState) (targetId : Nat) (evs : List Event)
    (d : SrcDesc) : Prop :=
  (∃ e', lookupE st.store d.srcId = some e' ∧ e'.parent = some targetId ∧
     e'.path = none) ∧
  (∃ te, lookupE st.store targetId = some te ∧
     (match d with
      | SrcDesc.leafSrc i _ => i ∈ te.items
      | SrcDesc.folderSrc t _ => t.rootId ∈ te.folders)) ∧
  (d.oldP = none → d.srcId ∉ st.rootFolders) ∧
  (∀ p, d.oldP = some p → ∃ pe, lookupE st.store p = some pe ∧
     (match d with
      | SrcDesc.leafSrc _ _ => pe.items.count d.srcId = 0
      | SrcDesc.folderSrc _ _ => pe.folders.count d.srcId = 0)) ∧
  (match d with
   | SrcDesc.leafSrc i _ => Event.persist i ∈ evs
   | SrcDesc.folderSrc t _ => ∀ j ∈ t.ids, Event.persist j ∈ evs ∧
       ∃ ej, lookupE st.store j = some ej ∧ ej.path = none)

/-! ### Concrete states used to instantiate the theorems -/

/-- An empty configuration (no folders yet). -/
def c1St : AppState := { store := [], rootFolders := [], cutCopied := [] }

/-- A top-level folder (id 0) holding one phrase (id 1). -/
def c2St : AppState :=
  { store :=
      [(0, { kind := EntityKind.folder, title := "F", parent := none,
             folders := [], items := [1], path := some "/f", modes := [] }),
       (1, { kind := EntityKind.phrase, title := "P", parent := some 0,
             folders := [], items := [], path := some "/f/p", modes := [] })],
    rootFolders := [0], cutCopied := [] }

/-- A paste target (id 0) and a staged clipboard folder (id 1) with a
subfolder (id 2) and a leaf (id 3), all with on-disk paths. -/
def c3St : AppState :=
  { store :=
      [(0, { kind := EntityKind.folder, title := "T", parent := none,
             folders := [], items := [], path := some "/t", modes := [] }),
       (1, { kind := EntityKind.folder, title := "F", parent := none,
             folders := [2], items := [3], path := some "/x/f", modes := [] }),
       (2, { kind := EntityKind.folder, title := "G", parent := some 1,
             folders := [], items := [], path := some "/x/g", modes := [] }),
       (3, { kind := EntityKind.phrase, title := "H", parent := some 1,
             folders := [], items := [], path := some "/x/h", modes := [] })],
    rootFolders := [0], cutCopied := [1] }

/-- The spec's example: folder "Work" (id 0) holding phrase "Signature"
(id 1) with an empty modes set. -/
def c6St : AppState :=
  { store :=
      [(0, { kind := EntityKind.folder, title := "Work", parent := none,
             folders := [], items := [1], path := some "/w", modes := [] }),
       (1, { kind := EntityKind.phrase, title := "Signature",
             parent := some 0, folders := [], items := [],
             path := some "/w/sig", modes := [] })],
    rootFolders := [0], cutCopied := [] }

/-- The "Signature" phrase of `c6St` as an entity value. -/
def c6Phrase : Entity :=
  { kind := EntityKind.phrase, title := "Signature", parent := some 0,
    folders := [], items := [], path := some "/w/sig", modes := [] }

/-- A move scenario: target folder 0; top-level folder 1 with subfolder
2 and leaf 3; folder 5 holding leaf 4. -/
def c7St : AppState :=
  { store :=
      [(0, { kind := EntityKind.folder, title := "T", parent := none,
             folders := [], items := [], path := some "/t", modes := [] }),
       (1, { kind := EntityKind.folder, title := "A", parent := none,
             folders := [2], items := [3], path := some "/a", modes := [] }),
       (2, { kind := EntityKind.folder, title := "B", parent := some 1,
             folders := [], items := [], path := some "/a/b", modes := [] }),
       (3, { kind := EntityKind.phrase, title := "G", parent := some 1,
             folders := [], items := [], path := some "/a/g", modes := [] }),
       (5, { kind := EntityKind.folder, title := "C", parent := none,
             folders := [], items := [4], path := some "/c", modes := [] }),
       (4, { kind := EntityKind.phrase, title := "D", parent := some 5,
             folders := [], items := [], path := some "/c/d", modes := [] })],
    rootFolders := [0, 1, 5], cutCopied := [] }

/-- The subtree description of folder 1 in `c7St`. -/
def c7Tree : ETree := ETree.node 1 [ETree.node 2 [] []] [3]

/-- A store with a top-level folder (id 0) owning a phrase (id 1) and a
second top-level folder (id 2); used for selection-filter instances. -/
def c8Store : Store :=
  [(0, { kind := EntityKind.folder, title := "F", parent := none,
         folders := [], items := [1], path := none, modes := [] }),
   (1, { kind := EntityKind.phrase, title := "P", parent := some 0,
         folders := [], items := [], path := none, modes := [] }),
   (2, { kind := EntityKind.folder, title := "G", parent := none,
         folders := [], items := [], path := none, modes := [] })]

/-- A copy scenario: a folder (id 1) and a phrase (id 3) under another
folder (id 2). -/
def c9St : AppState :=
  { store :=
      [(1, { kind := EntityKind.folder, title := "F", parent := none,
             folders := [], items := [], path := some "/f", modes := [] }),
       (2, { kind := EntityKind.folder, title := "G", parent := none,
             folders := [], items := [3], path := some "/g", modes := [] }),
       (3, { kind := EntityKind.phrase, title := "P", parent := some 2,
             folders := [], items := [],
             path := some "/g/p", modes := [TriggerMode.hotkey] })],
    rootFolders := [1, 2], cutCopied := [] }

/-- A paste target with an empty clipboard. -/
def c10StEmpty : AppState :=
  { store :=
      [(0, { kind := EntityKind.folder, title := "T", parent := none,
             folders := [], items := [], path := some "/t", modes := [] })],
    rootFolders := [0], cutCopied := [] }

/-- A paste target with one staged phrase (id 1). -/
def c10StFull : AppState :=
  { store :=
      [(0, { kind := EntityKind.folder, title := "T", parent := none,
             folders := [], items := [], path := some "/t", modes := [] }),
       (1, { kind := EntityKind.phrase, title := "P", parent := none,
             folders := [], items := [], path := none, modes := [] })],
    rootFolders := [0], cutCopied := [1] }

/-- A rename scenario: folder 0 holding phrase 1. -/
def c5St : AppState :=
  { store :=
      [(0, { kind := EntityKind.folder, title := "F", parent := none,
             folders := [], items := [1], path := some "/f", modes := [] }),
       (1, { kind := EntityKind.phrase, title := "Old", parent := some 0,
             folders := [], items := [], path := some "/f/Old", modes := [] })],
    rootFolders := [0], cutCopied := [] }

/-! ### The bounded log mirror (`ListWidgetHandler._add_item`)

`_add_item` appends the formatted record to the list widget, then, if
the widget now holds more than 50 items, takes (removes) the item at
index 0. -/

/-- `ListWidgetHandler._add_item`: append, then evict index 0 when the
buffer length exceeds 50. -/
def log_add_item {α : Type} (buf : List α) (item : α) : List α :=
  let b := buf ++ [item]
  if b.length > 50 then b.drop 1 else b

/-- A run of `_add_item` over a record list keeps the suffix that fits
in the 50-slot window. -/
theorem log_add_item_foldl {α : Type} (l : List α) :
    ∀ b : List α, b.length ≤ 50 →
      l.foldl log_add_item b = (b ++ l).drop (b.length + l.length - 50) := by
  induction l with
  | nil =>
    intro b hb
    simp [Nat.sub_eq_zero_of_le hb]
  | cons x xs ih =>
    intro b hb
    rw [List.foldl_cons]
    rcases Nat.lt_or_ge b.length 50 with hlt | hge
    · have hstep : log_add_item b x = b ++ [x] := by
        unfold log_add_item
        simp only [List.length_append, List.length_singleton]
        have : ¬ (b.length + 1 > 50) := by omega
        simp [this]
      rw [hstep, ih (b ++ [x]) (by simp; omega)]
      have hl : (b ++ [x]) ++ xs = b ++ x :: xs := by simp
      have hidx : (b ++ [x]).length + xs.length - 50 = b.length + (x :: xs).length - 50 := by
        simp
        omega
      rw [hl, hidx]
    · have hb50 : b.length = 50 := le_antisymm hb hge
      have hstep : log_add_item b x = (b ++ [x]).drop 1 := by
        unfold log_add_item
        simp only [List.length_append, List.length_singleton]
        have : b.length + 1 > 50 := by omega
        simp [this]
      have hlen : ((b ++ [x]).drop 1).length = 50 := by
        simp [hb50]
      rw [hstep, ih _ (le_of_eq hlen), hlen]
      have hidx1 : 50 + xs.length - 50 = xs.length := by omega
      have hidx2 : b.length + (x :: xs).length - 50 = xs.length + 1 := by
        simp [hb50]
      rw [hidx1, hidx2]
      have hdrop1 : (b ++ [x]).drop 1 = b.drop 1 ++ [x] :=
        List.drop_append_of_le_length (by omega)
      have hdrop2 : (b ++ x :: xs).drop 1 = b.drop 1 ++ x :: xs :=
        List.drop_append_of_le_length (by omega)
      calc (((b ++ [x]).drop 1) ++ xs).drop xs.length
          = ((b.drop 1 ++ [x]) ++ xs).drop xs.length := by rw [hdrop1]
        _ = (b.drop 1 ++ x :: xs).drop xs.length := by simp
        _ = ((b ++ x :: xs).drop 1).drop xs.length := by rw [hdrop2]
        _ = (b ++ x :: xs).drop (xs.length + 1) := by
              rw [List.drop_drop, Nat.add_comm]

/-! ### Store lemmas -/

theorem lookupE_updateE (s : Store) (i : Nat) (f : Entity → Entity) (j : Nat) :
    lookupE (updateE s i f) j =
      if j = i then (lookupE s j).map f else lookupE s j := by
  induction s with
  | nil => simp [lookupE, updateE]
  | cons hd tl ih =>
    obtain ⟨a, e⟩ := hd
    by_cases ha : a = i
    · subst ha
      by_cases hj : j = a
      · subst hj
        simp [lookupE, updateE]
      · simp [lookupE, updateE, hj, ih, Ne.symm hj]
    · by_cases hj : a = j
      · have hji : ¬ (j = i) := fun h => ha (hj.trans h)
        simp [lookupE, updateE, ha, hj, hji]
      · simp [lookupE, updateE, ha, hj, ih]

theorem length_updateE (s : Store) (i : Nat) (f : Entity → Entity) :
    (updateE s i f).length = s.length := by
  induction s with
  | nil => rfl
  | cons hd tl ih =>
    obtain ⟨a, e⟩ := hd
    by_cases ha : a = i <;> simp [updateE, ha, ih]

theorem lookupE_append_some (s s' : Store) (j : Nat) (e : Entity)
    (h : lookupE s j = some e) : lookupE (s ++ s') j = some e := by
  induction s with
  | nil => simp [lookupE] at h
  | cons hd tl ih =>
    obtain ⟨a, e'⟩ := hd
    by_cases ha : a = j
    · simp [lookupE, ha] at h ⊢
      exact h
    · simp [lookupE, ha] at h ⊢
      exact ih h

theorem lookupE_append_none (s s' : Store) (j : Nat)
    (h : lookupE s j = none) : lookupE (s ++ s') j = lookupE s' j := by
  induction s with
  | nil => simp [lookupE]
  | cons hd tl ih =>
    obtain ⟨a, e'⟩ := hd
    by_cases ha : a = j
    · simp [lookupE, ha] at h
    · simp [lookupE, ha] at h ⊢
      exact ih h

theorem lt_freshId_of_lookupE_some (s : Store) (j : Nat) (e : Entity)
    (h : lookupE s j = some e) : j < freshId s := by
  induction s with
  | nil => simp [lookupE] at h
  | cons hd tl ih =>
    obtain ⟨a, e'⟩ := hd
    have hfold : freshId ((a, e') :: tl) =
        max a ((tl.map Prod.fst).foldr max 0) + 1 := by
      simp [freshId]
    by_cases ha : a = j
    · rw [hfold]
      omega
    · simp [lookupE, ha] at h
      have hih := ih h
      unfold freshId at hih
      rw [hfold]
      omega

theorem lookupE_freshId (s : Store) : lookupE s (freshId s) = none := by
  cases h : lookupE s (freshId s) with
  | none => rfl
  | some e =>
    exact absurd (lt_freshId_of_lookupE_some s (freshId s) e h) (by omega)

theorem lookupE_isSome_updateE (s : Store) (i : Nat) (f : Entity → Entity)
    (j : Nat) : (lookupE (updateE s i f) j).isSome = (lookupE s j).isSome := by
  rw [lookupE_updateE]
  by_cases hj : j = i <;> simp [hj]

/-! ### `add_folder` / `add_item` lemmas -/

theorem lookupE_add_folder (s : Store) (p c j : Nat) (hpc : p ≠ c) :
    lookupE (add_folder s p c) j =
      if j = c then (lookupE s j).map (fun e => { e with parent := some p })
      else if j = p then
        (lookupE s j).map (fun e => { e with folders := e.folders ++ [c] })
      else lookupE s j := by
  unfold add_folder
  rw [lookupE_updateE, lookupE_updateE]
  by_cases hjc : j = c
  · subst hjc
    simp [Ne.symm hpc]
  · by_cases hjp : j = p <;> simp [hjc, hjp, hpc]

theorem lookupE_add_item (s : Store) (p c j : Nat) (hpc : p ≠ c) :
    lookupE (add_item s p c) j =
      if j = c then (lookupE s j).map (fun e => { e with parent := some p })
      else if j = p then
        (lookupE s j).map (fun e => { e with items := e.items ++ [c] })
      else lookupE s j := by
  unfold add_item
  rw [lookupE_updateE, lookupE_updateE]
  by_cases hjc : j = c
  · subst hjc
    simp [Ne.symm hpc]
  · by_cases hjp : j = p <;> simp [hjc, hjp, hpc]

/-! ### Events emitted by `__deleteHotkeys` are hotkey unregistrations -/

theorem deleteHotkeys_events_are_hotkeyRemoved (fuel : Nat) :
    ∀ s i ev, ev ∈ deleteHotkeys fuel s i → ∃ k, ev = Event.hotkeyRemoved k := by
  induction fuel with
  | zero =>
    intro s i ev h
    simp [deleteHotkeys] at h
  | succ fuel ih =>
    intro s i ev h
    rw [deleteHotkeys] at h
    cases hl : lookupE s i with
    | none => rw [hl] at h; simp at h
    | some e =>
      rw [hl] at h
      simp only [List.mem_append] at h
      rcases h with h | h
      · by_cases hm : TriggerMode.hotkey ∈ e.modes
        · simp [hm] at h
          exact ⟨i, h⟩
        · simp [hm] at h
      · by_cases hk : e.kind = EntityKind.folder
        · simp only [hk, if_true, List.mem_append] at h
          rcases h with h | h
          · rw [List.mem_flatten] at h
            obtain ⟨l, hl', hev⟩ := h
            rw [List.mem_map] at hl'
            obtain ⟨j, _, hj⟩ := hl'
            exact ih s j ev (hj ▸ hev)
          · rw [List.mem_filterMap] at h
            obtain ⟨j, _, hj⟩ := h
            cases hlj : lookupE s j with
            | none => rw [hlj] at hj; simp at hj
            | some c =>
              rw [hlj] at hj
              by_cases hm : TriggerMode.hotkey ∈ c.modes
              · simp [hm] at hj
                exact ⟨j, hj.symm⟩
              · simp [hm] at hj
        · simp [hk] at h

/-! ### `__removeItem` lemmas -/

theorem removeItem_store_isSome (st : AppState) (i j : Nat) :
    (lookupE (removeItem st i).1.store j).isSome =
      (lookupE st.store j).isSome := by
  cases hl : lookupE st.store i with
  | none => simp [removeItem, hl]
  | some e =>
    cases hp : e.parent with
    | none => simp [removeItem, hl, hp]
    | some p =>
      by_cases hk : e.kind = EntityKind.folder <;>
        simp [removeItem, hl, hp, hk, remove_folder, remove_item,
          lookupE_isSome_updateE]

theorem removeItem_removeData_self (st : AppState) (i : Nat) (e : Entity)
    (h : lookupE st.store i = some e) :
    Event.removeData i ∈ (removeItem st i).2 := by
  unfold removeItem
  rw [h]
  simp

theorem removeItem_removeData_only (st : AppState) (i j : Nat)
    (h : Event.removeData j ∈ (removeItem st i).2) : j = i := by
  cases hl : lookupE st.store i with
  | none => simp [removeItem, hl] at h
  | some e =>
    unfold removeItem at h
    rw [hl] at h
    simp only [List.mem_append, List.mem_cons] at h
    rcases h with h | h
    · obtain ⟨k, hk⟩ :=
        deleteHotkeys_events_are_hotkeyRemoved (st.store.length + 1)
          st.store i _ h
      simp at hk
    · simp at h
      exact h

theorem removeItems_removeData_iff (sel : List Nat) :
    ∀ st : AppState, (∀ i ∈ sel, (lookupE st.store i).isSome = true) →
      ∀ i, Event.removeData i ∈ (removeItems st sel).2 ↔ i ∈ sel := by
  induction sel with
  | nil =>
    intro st _ i
    simp [removeItems]
  | cons j js ih =>
    intro st hwf i
    have hj : (lookupE st.store j).isSome = true := hwf j (by simp)
    obtain ⟨e, he⟩ := Option.isSome_iff_exists.mp hj
    have hwf' : ∀ k ∈ js, (lookupE (removeItem st j).1.store k).isSome = true := by
      intro k hk
      rw [removeItem_store_isSome]
      exact hwf k (by simp [hk])
    constructor
    · intro h
      simp only [removeItems, List.mem_append] at h
      rcases h with h | h
      · simp [removeItem_removeData_only st j i h]
      · have := (ih (removeItem st j).1 hwf' i).mp h
        simp [this]
    · intro h
      simp only [removeItems, List.mem_append]
      rcases List.mem_cons.mp h with h | h
      · subst h
        exact Or.inl (removeItem_removeData_self st i e he)
      · exact Or.inr ((ih (removeItem st j).1 hwf' i).mpr h)

/-! ### Claim theorems -/

/-- Claim C1 (code bug): on the path where a new top-level folder is
created in the default location (`on_new_topfolder` answered Yes), the
handler suspends the monitor and then `__createFolder` suspends it a
second time but resumes it only once: two suspend calls against one
resume, so the bracket is not balanced on that path and the monitor is
left suspended. -/
theorem on_new_topfolder_default_path_unbalanced :
    ((on_new_topfolder c1St DialogChoice.yes none).2.count Event.suspend = 2) ∧
    ((on_new_topfolder c1St DialogChoice.yes none).2.count Event.unsuspend = 1) := by
  decide

/-- Claim C2 (counterexample): with folder 0 and its child phrase 1 both
selected, the Cut filter would keep only the folder, yet Delete passes
the child to `__removeItem` as well — the child is independently
processed (its data removal is invoked), contradicting the claim. -/
theorem on_delete_does_not_filter_counterexample :
    topLevelFilter c2St.store [0, 1] = [0] ∧
    Event.removeData 1 ∈ (on_delete c2St [0, 1] true).2 := by
  decide

/-- Claim C2 (amended): Delete applies no top-level filter: on a
confirmed delete, exactly the nodes of the raw selection — including a
child whose parent is also selected — are each passed to `__removeItem`
(witnessed by one data-removal call per selected node). -/
theorem on_delete_processes_raw_selection (st : AppState) (sel : List Nat)
    (hwf : ∀ i ∈ sel, (lookupE st.store i).isSome = true) :
    ∀ i, Event.removeData i ∈ (on_delete st sel true).2 ↔ i ∈ sel := by
  intro i
  have h := removeItems_removeData_iff sel st hwf i
  simp only [on_delete, if_true]
  constructor
  · intro hmem
    refine h.mp ?_
    rcases List.mem_cons.mp hmem with h1 | h1
    · cases h1
    · rcases List.mem_append.mp h1 with h2 | h2
      · exact h2
      · rcases List.mem_cons.mp h2 with h3 | h3
        · cases h3
        · rcases List.mem_cons.mp h3 with h4 | h4
          · cases h4
          · exact absurd h4 (List.not_mem_nil _)
  · intro hmem
    exact List.mem_cons_of_mem _ (List.mem_append_left _ (h.mpr hmem))

/-- Claim C2 (witness for the amended theorem): in the concrete
folder-plus-child state, the removal trace of a confirmed delete of
both contains the child's data removal. -/
theorem on_delete_processes_raw_selection_witness :
    Event.removeData 1 ∈ (on_delete c2St [0, 1] true).2 :=
  (on_delete_processes_raw_selection c2St [0, 1] (by decide) 1).mpr (by decide)

/-- Claim C4: the log mirror buffer is bounded at 50 with strict FIFO
eviction: each append drops index 0 when the new length exceeds 50, and
appending 51 records to an empty buffer leaves exactly the last 50 —
records #2 through #51 in their original order. -/
theorem log_mirror_fifo_bound {α : Type} (records : List α)
    (h : records.length = 51) :
    (∀ (b : List α) (x : α), (b ++ [x]).length > 50 →
        log_add_item b x = (b ++ [x]).drop 1) ∧
    records.foldl log_add_item [] = records.drop 1 ∧
    (records.foldl log_add_item []).length = 50 := by
  refine ⟨?_, ?_, ?_⟩
  · intro b x hlen
    unfold log_add_item
    simp only [hlen, if_true]
  · have := log_add_item_foldl records [] (by simp)
    simpa [h] using this
  · have := log_add_item_foldl records [] (by simp)
    rw [this]
    simp [h]

/-- Claim C4 (witness): appending the 51 records `0, …, 50` to an empty
buffer leaves `1, …, 50`. -/
theorem log_mirror_fifo_bound_witness :
    (List.range 51).foldl log_add_item [] = (List.range 51).drop 1 :=
  (log_mirror_fifo_bound (List.range 51) (by simp)).2.1

/-- Claim C8: `__getSelection` never returns an entity whose parent is
also returned (shown here with the parent of a returned entity, which is
never in the result list), and on a selection holding a folder (id 0)
and its direct child (id 1) it returns only the folder. -/
theorem getSelection_top_level_filtered (s : Store) (sel : List Nat)
    (i : Nat) (e : Entity) (p : Nat) (hi : i ∈ getSelection s sel)
    (he : lookupE s i = some e) (hp : e.parent = some p) :
    p ∉ getSelection s sel ∧ getSelection c8Store [0, 1] = [0] := by
  constructor
  · intro hmem
    have hsub : p ∈ sel := (List.mem_filter.mp hmem).1
    have hpred := (List.mem_filter.mp hi).2
    simp only [getSelection] at hpred
    simp only [he] at hpred
    simp only [hp] at hpred
    simp at hpred
    exact hpred hsub
  · decide

/-- Claim C8 (witness): in the three-entity store, the phrase (id 1,
child of folder 0) is returned when selected alone, and its parent is
then not in the result. -/
theorem getSelection_top_level_filtered_witness :
    (0 : Nat) ∉ getSelection c8Store [1, 2] :=
  (getSelection_top_level_filtered c8Store [1, 2] 1
    { kind := EntityKind.phrase, title := "P", parent := some 0,
      folders := [], items := [], path := none, modes := [] }
    0 (by decide) (by decide) (by decide)).1

/-! ### Paste lemmas -/

theorem lookupE_isSome_add_folder (s : Store) (p c j : Nat) :
    (lookupE (add_folder s p c) j).isSome = (lookupE s j).isSome := by
  simp [add_folder, lookupE_isSome_updateE]

theorem lookupE_isSome_add_item (s : Store) (p c j : Nat) :
    (lookupE (add_item s p c) j).isSome = (lookupE s j).isSome := by
  simp [add_item, lookupE_isSome_updateE]

theorem pasteLoop_complete (pid : Nat) : ∀ (l : List Nat) (s : Store),
    (∀ i ∈ l, (lookupE s i).isSome = true) →
    ∃ s', pasteLoop s pid l = (l.map Event.persist, some (s', l)) := by
  intro l
  induction l with
  | nil => exact fun s _ => ⟨s, rfl⟩
  | cons i rest ih =>
    intro s hwf
    obtain ⟨e, he⟩ := Option.isSome_iff_exists.mp (hwf i (by simp))
    by_cases hk : e.kind = EntityKind.folder
    · have hwf' : ∀ k ∈ rest, (lookupE (add_folder s pid i) k).isSome = true := by
        intro k hkmem
        rw [lookupE_isSome_add_folder]
        exact hwf k (by simp [hkmem])
      obtain ⟨s3, h3⟩ := ih (add_folder s pid i) hwf'
      refine ⟨s3, ?_⟩
      simp [pasteLoop, he, hk, h3]
    · have hwf' : ∀ k ∈ rest, (lookupE (add_item s pid i) k).isSome = true := by
        intro k hkmem
        rw [lookupE_isSome_add_item]
        exact hwf k (by simp [hkmem])
      obtain ⟨s3, h3⟩ := ih (add_item s pid i) hwf'
      refine ⟨s3, ?_⟩
      simp [pasteLoop, he, hk, h3]

/-- Claim C10: pasting with an empty clipboard is not a no-op — after
the monitor is suspended the code indexes `new_items[-1]` on an empty
list, so the handler fails (result `none`) and the monitor resume on
that path is never executed; with a non-empty clipboard the index access
is in bounds and the handler completes. -/
theorem on_paste_empty_clipboard_crashes (st : AppState) (pid : Nat) :
    (st.cutCopied = [] →
      (on_paste st pid).1 = none ∧
      Event.suspend ∈ (on_paste st pid).2 ∧
      Event.unsuspend ∉ (on_paste st pid).2) ∧
    (st.cutCopied ≠ [] →
      (∀ i ∈ st.cutCopied, (lookupE st.store i).isSome = true) →
      (on_paste st pid).1.isSome = true) := by
  constructor
  · intro h
    simp [on_paste, h, pasteLoop]
  · intro hne hwf
    obtain ⟨s', hp⟩ := pasteLoop_complete pid st.cutCopied st.store hwf
    have hlast : st.cutCopied.getLast?.isSome = true := by
      rw [List.getLast?_isSome]
      exact hne
    obtain ⟨x, hx⟩ := Option.isSome_iff_exists.mp hlast
    simp [on_paste, hp, hx]

/-- Claim C10 (witness): with one staged phrase the paste completes (the
index access is in bounds), and with an empty clipboard it fails after
suspending, never resuming. -/
theorem on_paste_empty_clipboard_crashes_witness :
    (on_paste c10StEmpty 0).1 = none ∧
    Event.unsuspend ∉ (on_paste c10StEmpty 0).2 ∧
    (on_paste c10StFull 0).1.isSome = true := by
  refine ⟨?_, ?_, ?_⟩
  · exact ((on_paste_empty_clipboard_crashes c10StEmpty 0).1 (by decide)).1
  · exact ((on_paste_empty_clipboard_crashes c10StEmpty 0).1 (by decide)).2.2
  · exact (on_paste_empty_clipboard_crashes c10StFull 0).2 (by decide) (by decide)

/-- Claim C5: a rename to an empty name performs no mutation, persists
nothing, surfaces nothing to the host and only reverts the visual
label; a rename to a non-empty name sets the title, recomputes the
derived path, persists, notifies the host and re-sorts siblings
ascending (the exact collaborator trace is
suspend–persist–resume–notify–sort). -/
theorem rename_empty_is_local_noop (st : AppState) (i : Nat)
    (newText : String) (persistGlobal : Bool) :
    (newText = "" →
      on_treeWidget_itemChanged st i newText persistGlobal =
        (st, [Event.revertLabel])) ∧
    (newText ≠ "" → ∀ e, lookupE st.store i = some e →
      ∃ e', lookupE
          (on_treeWidget_itemChanged st i newText persistGlobal).1.store i =
            some e' ∧
        e'.title = newText ∧
        e'.path = derivedPath
          (updateE st.store i (fun x => { x with title := newText })) i ∧
        (on_treeWidget_itemChanged st i newText persistGlobal).2 =
          [Event.suspend, Event.persist i, Event.unsuspend,
           Event.configAltered persistGlobal, Event.sortAscending]) := by
  constructor
  · intro h
    subst h
    rfl
  · intro hne e he
    have hemp : newText.isEmpty = false := by
      rcases h : newText.isEmpty with _ | _
      · rfl
      · exact absurd ((String.isEmpty_iff newText).mp h) hne
    refine ⟨{ e with
        title := newText
        path := derivedPath
          (updateE st.store i (fun x => { x with title := newText })) i },
      ?_, rfl, rfl, ?_⟩
    · simp only [on_treeWidget_itemChanged, hemp, Bool.false_eq_true, if_false,
        he]
      rw [lookupE_updateE]
      simp only [if_pos rfl]
      rw [lookupE_updateE]
      simp [he]
    · simp [on_treeWidget_itemChanged, hemp, he]

/-- Claim C5 (witness): renaming the phrase (id 1) to "New" produces the
full success trace, and the new title is in place. -/
theorem rename_empty_is_local_noop_witness :
    (on_treeWidget_itemChanged c5St 1 "" true = (c5St, [Event.revertLabel])) ∧
    (∃ e', lookupE (on_treeWidget_itemChanged c5St 1 "New" false).1.store 1 =
        some e' ∧
      e'.title = "New" ∧
      e'.path = derivedPath
        (updateE c5St.store 1 (fun x => { x with title := "New" })) 1 ∧
      (on_treeWidget_itemChanged c5St 1 "New" false).2 =
        [Event.suspend, Event.persist 1, Event.unsuspend,
         Event.configAltered false, Event.sortAscending]) := by
  constructor
  · exact (rename_empty_is_local_noop c5St 1 "" true).1 rfl
  · exact (rename_empty_is_local_noop c5St 1 "New" false).2
      (by simp)
      { kind := EntityKind.phrase, title := "Old", parent := some 0,
        folders := [], items := [], path := some "/f/Old", modes := [] }
      (by rfl)

/-! ### Copy lemmas -/

theorem copyLoop_lookup_mono : ∀ (l : List Nat) (st : AppState) (j : Nat)
    (e : Entity), lookupE st.store j = some e →
    lookupE (copyLoop st l).store j = some e := by
  intro l
  induction l with
  | nil => exact fun st j e h => h
  | cons i rest ih =>
    intro st j e h
    cases hl : lookupE st.store i with
    | none =>
      simp only [copyLoop, hl]
      exact ih st j e h
    | some src =>
      simp only [copyLoop, hl]
      exact ih _ j e (lookupE_append_some _ _ _ _ h)

theorem copyLoop_spec : ∀ (l : List Nat) (st : AppState),
    (∀ i ∈ l, (lookupE st.store i).isSome = true) →
    ∃ news : List Nat,
      (copyLoop st l).cutCopied = st.cutCopied ++ news ∧
      news.length = l.length ∧
      (∀ j ∈ news, lookupE st.store j = none) ∧
      (∀ j ∈ news, ∃ e, lookupE (copyLoop st l).store j = some e ∧
        e.kind ≠ EntityKind.folder) ∧
      news.map (fun j => (lookupE (copyLoop st l).store j).map Entity.kind) =
        l.map (fun i => (lookupE st.store i).map
          (fun e => if e.kind = EntityKind.phrase then EntityKind.phrase
                    else EntityKind.script)) := by
  intro l
  induction l with
  | nil =>
    intro st _
    exact ⟨[], by simp [copyLoop], rfl, by simp, by simp, by simp [copyLoop]⟩
  | cons i rest ih =>
    intro st hwf
    obtain ⟨src, hsrc⟩ := Option.isSome_iff_exists.mp (hwf i (by simp))
    set k := if src.kind = EntityKind.phrase then EntityKind.phrase
             else EntityKind.script with hk
    set nid := freshId st.store with hnid
    set st' : AppState :=
      { st with store := st.store ++ [(nid, copyFields src k)],
                cutCopied := st.cutCopied ++ [nid] } with hst'
    have hstep : copyLoop st (i :: rest) = copyLoop st' rest := by
      simp only [copyLoop, hsrc]
    have hwf' : ∀ i' ∈ rest, (lookupE st'.store i').isSome = true := by
      intro i' hi'
      obtain ⟨e', he'⟩ := Option.isSome_iff_exists.mp (hwf i' (by simp [hi']))
      rw [hst']
      simp only
      rw [lookupE_append_some _ _ _ _ he']
      rfl
    obtain ⟨news', hcut, hlen, hfresh, hkindok, hmap⟩ := ih st' hwf'
    have hnidlook : lookupE st'.store nid = some (copyFields src k) := by
      rw [hst']
      simp only
      rw [lookupE_append_none _ _ _ (by rw [hnid]; exact lookupE_freshId _)]
      simp [lookupE]
    have hnidfinal : lookupE (copyLoop st' rest).store nid =
        some (copyFields src k) :=
      copyLoop_lookup_mono rest st' nid _ hnidlook
    refine ⟨nid :: news', ?_, ?_, ?_, ?_, ?_⟩
    · rw [hstep, hcut, hst']
      simp
    · simp [hlen]
    · intro j hj
      rcases List.mem_cons.mp hj with hj | hj
      · subst hj
        rw [hnid]
        exact lookupE_freshId _
      · have hnone := hfresh j hj
        cases hcase : lookupE st.store j with
        | none => rfl
        | some e =>
          rw [hst'] at hnone
          simp only at hnone
          rw [lookupE_append_some _ _ _ _ hcase] at hnone
          cases hnone
    · intro j hj
      rcases List.mem_cons.mp hj with hj | hj
      · subst hj
        rw [hstep]
        refine ⟨copyFields src k, hnidfinal, ?_⟩
        rw [hk]
        by_cases hph : src.kind = EntityKind.phrase <;>
          simp [copyFields, hph]
      · rw [hstep]
        exact hkindok j hj
    · rw [hstep]
      simp only [List.map_cons]
      congr 1
      · rw [hnidfinal, hsrc]
        simp [copyFields]
      · rw [hmap]
        refine List.map_congr_left ?_
        intro i' hi'
        obtain ⟨e', he'⟩ := Option.isSome_iff_exists.mp (hwf i' (by simp [hi']))
        rw [he']
        rw [hst']
        simp only
        rw [lookupE_append_some _ _ _ _ he']

/-- Claim C9: every entry Copy appends to the clipboard buffer is a
freshly constructed leaf — its id resolves to nothing in the original
store (so it is never the selected entity itself) and its kind is never
Folder: a selected Phrase is duplicated as a new Phrase, and every
non-Phrase selected entity (including a Folder in the selection) as a
new Script. -/
theorem on_copy_stages_fresh_leaf_duplicates (st : AppState)
    (sel : List Nat)
    (hwf : ∀ i ∈ getSelection st.store sel,
      (lookupE st.store i).isSome = true) :
    ∃ news : List Nat,
      (on_copy st sel).cutCopied = st.cutCopied ++ news ∧
      news.length = (getSelection st.store sel).length ∧
      (∀ j ∈ news, lookupE st.store j = none) ∧
      (∀ j ∈ news, ∃ e, lookupE (on_copy st sel).store j = some e ∧
        e.kind ≠ EntityKind.folder) ∧
      news.map (fun j => (lookupE (on_copy st sel).store j).map Entity.kind) =
        (getSelection st.store sel).map (fun i => (lookupE st.store i).map
          (fun e => if e.kind = EntityKind.phrase then EntityKind.phrase
                    else EntityKind.script)) :=
  copyLoop_spec (getSelection st.store sel) st hwf

/-- Claim C9 (witness): copying the selection holding folder 1 and
phrase 3 stages two fresh ids with no counterpart in the original
store, the folder copied as a Script and the phrase as a Phrase. -/
theorem on_copy_stages_fresh_leaf_duplicates_witness :
    ∃ news : List Nat,
      (on_copy c9St [1, 3]).cutCopied = c9St.cutCopied ++ news ∧
      news.length = (getSelection c9St.store [1, 3]).length ∧
      (∀ j ∈ news, lookupE c9St.store j = none) ∧
      (∀ j ∈ news, ∃ e, lookupE (on_copy c9St [1, 3]).store j = some e ∧
        e.kind ≠ EntityKind.folder) ∧
      news.map
          (fun j => (lookupE (on_copy c9St [1, 3]).store j).map Entity.kind) =
        (getSelection c9St.store [1, 3]).map
          (fun i => (lookupE c9St.store i).map
            (fun e => if e.kind = EntityKind.phrase then EntityKind.phrase
                      else EntityKind.script)) :=
  on_copy_stages_fresh_leaf_duplicates c9St [1, 3] (by decide)

/-! ### Full paste characterization -/

theorem pasteLoop_spec (pid : Nat) : ∀ (l : List Nat) (s : Store),
    (∀ i ∈ l, (lookupE s i).isSome = true) → pid ∉ l →
    ∃ s', pasteLoop s pid l = (l.map Event.persist, some (s', l)) ∧
      (∀ j e, lookupE s j = some e → ∃ e', lookupE s' j = some e' ∧
        e'.path = e.path ∧ e'.kind = e.kind ∧
        (e'.parent = e.parent ∨ e'.parent = some pid)) ∧
      (∀ i ∈ l, ∃ e', lookupE s' i = some e' ∧ e'.parent = some pid) := by
  intro l
  induction l with
  | nil =>
    intro s _ _
    exact ⟨s, rfl, fun j e h => ⟨e, h, rfl, rfl, Or.inl rfl⟩, by simp⟩
  | cons i rest ih =>
    intro s hwf hpid
    have hpidi : pid ≠ i := fun h => hpid (by simp [h])
    have hpidrest : pid ∉ rest := fun h => hpid (by simp [h])
    obtain ⟨e, he⟩ := Option.isSome_iff_exists.mp (hwf i (by simp))
    by_cases hk : e.kind = EntityKind.folder
    all_goals {
      first
      | (have hstep : pasteLoop s pid (i :: rest) =
            (Event.persist i :: (pasteLoop (add_folder s pid i) pid rest).1,
             ((pasteLoop (add_folder s pid i) pid rest).2.map
               (fun p => (p.1, i :: p.2)))) := by
           simp [pasteLoop, he, hk]
         set s1 := add_folder s pid i with hs1)
      | (have hstep : pasteLoop s pid (i :: rest) =
            (Event.persist i :: (pasteLoop (add_item s pid i) pid rest).1,
             ((pasteLoop (add_item s pid i) pid rest).2.map
               (fun p => (p.1, i :: p.2)))) := by
           simp [pasteLoop, he, hk]
         set s1 := add_item s pid i with hs1)
      -- one-step field bookkeeping for `s1`
      have hchar : ∀ j eo, lookupE s j = some eo →
          ∃ e1, lookupE s1 j = some e1 ∧ e1.path = eo.path ∧
            e1.kind = eo.kind ∧
            (e1.parent = eo.parent ∨ e1.parent = some pid) := by
        intro j eo hj
        rw [hs1]
        first
        | rw [lookupE_add_folder s pid i j hpidi]
        | rw [lookupE_add_item s pid i j hpidi]
        by_cases hji : j = i
        · subst hji
          rw [if_pos rfl, hj]
          exact ⟨_, rfl, rfl, rfl, Or.inr rfl⟩
        · rw [if_neg hji]
          by_cases hjp : j = pid
          · subst hjp
            rw [if_pos rfl, hj]
            exact ⟨_, rfl, rfl, rfl, Or.inl rfl⟩
          · rw [if_neg hjp, hj]
            exact ⟨_, rfl, rfl, rfl, Or.inl rfl⟩
      have hwf1 : ∀ i' ∈ rest, (lookupE s1 i').isSome = true := by
        intro i' hi'
        obtain ⟨e', he'⟩ := Option.isSome_iff_exists.mp (hwf i' (by simp [hi']))
        obtain ⟨e1, he1, _⟩ := hchar i' e' he'
        simp [he1]
      have hiparent : ∃ e1, lookupE s1 i = some e1 ∧ e1.parent = some pid := by
        rw [hs1]
        first
        | rw [lookupE_add_folder s pid i i hpidi]
        | rw [lookupE_add_item s pid i i hpidi]
        rw [if_pos rfl, he]
        exact ⟨_, rfl, rfl⟩
      obtain ⟨s', hloop, hpres, hpar⟩ := ih s1 hwf1 hpidrest
      refine ⟨s', ?_, ?_, ?_⟩
      · rw [hstep, hloop]
        simp
      · intro j eo hj
        obtain ⟨e1, he1, hpath1, hkind1, hpar1⟩ := hchar j eo hj
        obtain ⟨e2, he2, hpath2, hkind2, hpar2⟩ := hpres j e1 he1
        refine ⟨e2, he2, hpath2.trans hpath1, hkind2.trans hkind1, ?_⟩
        rcases hpar2 with h2 | h2
        · rcases hpar1 with h1 | h1
          · exact Or.inl (h2.trans h1)
          · exact Or.inr (h2.trans h1)
        · exact Or.inr h2
      · intro i' hi'
        rcases List.mem_cons.mp hi' with hi' | hi'
        · subst hi'
          obtain ⟨e1, he1, hp1⟩ := hiparent
          obtain ⟨e2, he2, _, _, hpar2⟩ := hpres i' e1 he1
          refine ⟨e2, he2, ?_⟩
          rcases hpar2 with h2 | h2
          · exact h2.trans hp1
          · exact h2
        · exact hpar i' hi'
    }

/-- Claim C3 (counterexample): pasting the staged folder (id 1, path
"/x/f", with subfolder 2 at path "/x/g" and leaf 3 at path "/x/h")
under target folder 0 leaves the subfolder's path exactly as it was —
nothing clears `path` recursively — and the nested leaf is never
persisted. -/
theorem on_paste_does_not_clear_paths :
    ((on_paste c3St 0).1.map (fun s => (lookupE s.store 2).map Entity.path)) =
      some (some (some "/x/g")) ∧
    Event.persist 3 ∉ (on_paste c3St 0).2 := by
  decide

/-- Claim C3 (amended): for a non-empty staged clipboard, each staged
entity is re-parented under the target folder, each staged (top-level)
entity is persisted — and nothing else is: persist calls happen exactly
for the staged entities, so leaves nested inside a pasted folder are
not individually persisted — the clipboard buffer is cleared, all
pasted top-level items are selected, and no `path` field of any entity
is cleared or otherwise changed. -/
theorem on_paste_amended (st : AppState) (pid : Nat)
    (hne : st.cutCopied ≠ [])
    (hwf : ∀ i ∈ st.cutCopied, (lookupE st.store i).isSome = true)
    (hpid : pid ∉ st.cutCopied) :
    ∃ st', (on_paste st pid).1 = some st' ∧
      st'.cutCopied = [] ∧
      (∀ i ∈ st.cutCopied,
        Event.addSelect i ∈ (on_paste st pid).2 ∧
        ∃ e', lookupE st'.store i = some e' ∧ e'.parent = some pid) ∧
      (∀ k, Event.persist k ∈ (on_paste st pid).2 ↔ k ∈ st.cutCopied) ∧
      (∀ j e, lookupE st.store j = some e →
        ∃ e', lookupE st'.store j = some e' ∧ e'.path = e.path) := by
  obtain ⟨s', hloop, hpres, hpar⟩ :=
    pasteLoop_spec pid st.cutCopied st.store hwf hpid
  have hlast : st.cutCopied.getLast?.isSome = true := by
    rw [List.getLast?_isSome]
    exact hne
  obtain ⟨x, hx⟩ := Option.isSome_iff_exists.mp hlast
  have hpaste : on_paste st pid =
      (some { st with store := s', cutCopied := [] },
       Event.suspend :: st.cutCopied.map Event.persist ++
         [Event.sortAscending, Event.setCurrent x] ++
         st.cutCopied.map Event.addSelect ++
         [Event.unsuspend, Event.configAltered false]) := by
    simp [on_paste, hloop, hx]
  refine ⟨{ st with store := s', cutCopied := [] }, by rw [hpaste], rfl,
    ?_, ?_, ?_⟩
  · intro i hi
    refine ⟨?_, hpar i hi⟩
    rw [hpaste]
    exact List.mem_append_left _ (List.mem_append_right _
      (List.mem_map_of_mem Event.addSelect hi))
  · intro k
    rw [hpaste]
    constructor
    · intro hmem
      rcases List.mem_append.mp hmem with h | h
      · rcases List.mem_append.mp h with h | h
        · rcases List.mem_append.mp h with h | h
          · rcases List.mem_cons.mp h with h | h
            · cases h
            · obtain ⟨a, ha, hae⟩ := List.mem_map.mp h
              cases hae
              exact ha
          · rcases List.mem_cons.mp h with h | h
            · cases h
            · rcases List.mem_cons.mp h with h | h
              · cases h
              · exact absurd h (List.not_mem_nil _)
        · obtain ⟨a, _, hae⟩ := List.mem_map.mp h
          cases hae
      · rcases List.mem_cons.mp h with h | h
        · cases h
        · rcases List.mem_cons.mp h with h | h
          · cases h
          · exact absurd h (List.not_mem_nil _)
    · intro hmem
      exact List.mem_append_left _ (List.mem_append_left _
        (List.mem_append_left _ (List.mem_cons_of_mem _
          (List.mem_map_of_mem Event.persist hmem))))
  · intro j e hj
    obtain ⟨e', he', hpath, _, _⟩ := hpres j e hj
    exact ⟨e', he', hpath⟩

/-- Claim C3 (witness for the amended theorem): pasting the staged
folder 1 under target 0 re-parents it, persists exactly the staged
entity, clears the clipboard, selects the pasted item, and changes no
paths. -/
theorem on_paste_amended_witness :
    ∃ st', (on_paste c3St 0).1 = some st' ∧
      st'.cutCopied = [] ∧
      (∀ i ∈ c3St.cutCopied,
        Event.addSelect i ∈ (on_paste c3St 0).2 ∧
        ∃ e', lookupE st'.store i = some e' ∧ e'.parent = some 0) ∧
      (∀ k, Event.persist k ∈ (on_paste c3St 0).2 ↔ k ∈ c3St.cutCopied) ∧
      (∀ j e, lookupE c3St.store j = some e →
        ∃ e', lookupE st'.store j = some e' ∧ e'.path = e.path) :=
  on_paste_amended c3St 0 (by decide) (by decide) (by decide)

/-! ### Subtree-description lemmas -/

theorem mem_idsList (j : Nat) (fs : List ETree) :
    j ∈ ETree.idsList fs ↔ ∃ t ∈ fs, j ∈ t.ids := by
  induction fs with
  | nil => simp [ETree.idsList]
  | cons t ts ih =>
    rw [ETree.idsList]
    simp only [List.mem_append, ih]
    constructor
    · rintro (h | ⟨t', ht', hj⟩)
      · exact ⟨t, by simp, h⟩
      · exact ⟨t', by simp [ht'], hj⟩
    · rintro ⟨t', ht', hj⟩
      rcases List.mem_cons.mp ht' with h | h
      · exact Or.inl (h ▸ hj)
      · exact Or.inr ⟨t', h, hj⟩

theorem height_le_heightList (t : ETree) (fs : List ETree) (h : t ∈ fs) :
    t.height ≤ ETree.heightList fs := by
  induction fs with
  | nil => cases h
  | cons t' ts ih =>
    rw [ETree.heightList]
    rcases List.mem_cons.mp h with h | h
    · exact h ▸ Nat.le_max_left _ _
    · exact le_trans (ih h) (Nat.le_max_right _ _)

theorem representsListB_mem (s : Store) (fs : List ETree) (t : ETree)
    (h : representsListB s fs = true) (ht : t ∈ fs) :
    representsB s t = true := by
  induction fs with
  | nil => cases ht
  | cons t' ts ih =>
    rw [representsListB, Bool.and_eq_true] at h
    rcases List.mem_cons.mp ht with h' | h'
    · exact h' ▸ h.1
    · exact ih h.2 h'

theorem representsB_node_elim (s : Store) (i : Nat) (fs : List ETree)
    (its : List Nat) (h : representsB s (ETree.node i fs its) = true) :
    ∃ e, lookupE s i = some e ∧ e.kind = EntityKind.folder ∧
      e.folders = fs.map ETree.rootId ∧ e.items = its ∧
      representsListB s fs = true ∧
      ∀ j ∈ its, ∃ c, lookupE s j = some c ∧ c.kind ≠ EntityKind.folder := by
  rw [representsB, Bool.and_eq_true, Bool.and_eq_true] at h
  obtain ⟨⟨hmatch, hlist⟩, hitems⟩ := h
  cases hl : lookupE s i with
  | none => rw [hl] at hmatch; cases hmatch
  | some e =>
    rw [hl] at hmatch
    simp only [Bool.and_eq_true, decide_eq_true_eq] at hmatch
    refine ⟨e, rfl, hmatch.1.1, hmatch.1.2, hmatch.2, hlist, ?_⟩
    intro j hj
    have := List.all_eq_true.mp hitems j hj
    cases hlj : lookupE s j with
    | none => rw [hlj] at this; cases this
    | some c =>
      rw [hlj] at this
      simp only [decide_eq_true_eq] at this
      exact ⟨c, rfl, this⟩

/-- Claim C6 (amended): `__deleteHotkeys` on a folder reports to the
hotkey registry exactly the subtree entities (the folder itself and
every descendant folder and leaf at any depth) whose modes contain
`HOTKEY`; and — as in the spec's Work/Signature example — deleting a
folder whose phrase has empty modes triggers no removed call and
removes the folder from the root list, but the phrase is *not* detached
from its parent: its parent back-reference and the folder's child list
are left intact (the subtree is discarded as a whole). -/
theorem deleteHotkeys_exactly_hotkey_modes (fuel : Nat) (s : Store)
    (t : ETree) (hrep : representsB s t = true) (hfuel : t.height ≤ fuel) :
    (∀ j, Event.hotkeyRemoved j ∈ deleteHotkeys fuel s t.rootId ↔
      (j ∈ t.ids ∧ ∃ e, lookupE s j = some e ∧
        TriggerMode.hotkey ∈ e.modes)) ∧
    ((on_delete c6St [0] true).2 =
      [Event.suspend, Event.removeData 0, Event.sortAscending, Event.reselect,
       Event.unsuspend, Event.configAltered false] ∧
     (on_delete c6St [0] true).1.rootFolders = [] ∧
     (lookupE (on_delete c6St [0] true).1.store 1).map Entity.parent =
       some (some 0) ∧
     (lookupE (on_delete c6St [0] true).1.store 0).map Entity.items =
       some [1]) := by
  refine ⟨?_, by decide, by decide, by decide, by decide⟩
  induction fuel generalizing t s with
  | zero =>
    obtain ⟨i, fs, its⟩ := t
    rw [ETree.height] at hfuel
    omega
  | succ fuel ih =>
    obtain ⟨i, fs, its⟩ := t
    obtain ⟨e, hl, hke, hfold, hits, hlist, hleaf⟩ :=
      representsB_node_elim s i fs its hrep
    intro j
    rw [ETree.rootId]
    rw [deleteHotkeys]
    rw [hl]
    rw [ETree.ids]
    simp only [hke, if_true, hfold, hits]
    constructor
    · intro hmem
      rcases List.mem_append.mp hmem with h | h
      · by_cases hm : TriggerMode.hotkey ∈ e.modes
        · rw [if_pos hm] at h
          rcases List.mem_singleton.mp h with h
          cases h
          exact ⟨by simp, e, hl, hm⟩
        · rw [if_neg hm] at h
          cases h
      · rcases List.mem_append.mp h with h | h
        · rw [List.mem_flatten] at h
          obtain ⟨l', hl', hev⟩ := h
          rw [List.mem_map] at hl'
          obtain ⟨rid, hrid, hridl⟩ := hl'
          rw [List.mem_map] at hrid
          obtain ⟨t', ht', hrt⟩ := hrid
          have hrep' : representsB s t' = true := representsListB_mem s fs t' hlist ht'
          have hf' : t'.height ≤ fuel := by
            have h1 := height_le_heightList t' fs ht'
            rw [ETree.height] at hfuel
            omega
          have := (ih s t' hrep' hf' j).mp (by rw [hrt, hridl]; exact hev)
          obtain ⟨hin, hex⟩ := this
          refine ⟨?_, hex⟩
          simp only [List.mem_cons, List.mem_append]
          exact Or.inr (Or.inl ((mem_idsList j fs).mpr ⟨t', ht', hin⟩))
        · rw [List.mem_filterMap] at h
          obtain ⟨j0, hj0, hmt⟩ := h
          cases hlj : lookupE s j0 with
          | none => rw [hlj] at hmt; cases hmt
          | some c =>
            rw [hlj] at hmt
            by_cases hm : TriggerMode.hotkey ∈ c.modes
            · simp only [hm, if_true] at hmt
              have hj : j0 = j := by
                simpa using hmt
              subst hj
              refine ⟨?_, c, hlj, hm⟩
              simp [hj0]
            · simp [hm] at hmt
    · rintro ⟨hjids, e', he', hm⟩
      rcases List.mem_cons.mp hjids with hj | hj
      · subst hj
        rw [hl] at he'
        cases Option.some.inj he'
        refine List.mem_append_left _ ?_
        rw [if_pos hm]
        simp
      · rcases List.mem_append.mp hj with hj | hj
        · obtain ⟨t', ht', hjt⟩ := (mem_idsList j fs).mp hj
          have hrep' : representsB s t' = true :=
            representsListB_mem s fs t' hlist ht'
          have hf' : t'.height ≤ fuel := by
            have h1 := height_le_heightList t' fs ht'
            rw [ETree.height] at hfuel
            omega
          have := (ih s t' hrep' hf' j).mpr ⟨hjt, e', he', hm⟩
          refine List.mem_append_right _ (List.mem_append_left _ ?_)
          rw [List.mem_flatten]
          exact ⟨deleteHotkeys fuel s t'.rootId,
            List.mem_map_of_mem _ (List.mem_map_of_mem _ ht'), this⟩
        · refine List.mem_append_right _ (List.mem_append_right _ ?_)
          rw [List.mem_filterMap]
          refine ⟨j, hj, ?_⟩
          rw [he']
          simp [hm]

/-- Claim C6 (counterexample): after deleting folder "Work" (id 0),
phrase "Signature" (id 1, empty modes) still carries `parent = Work`
and still sits in Work's child list — it is not detached from its
parent, contradicting the claim's detachment clause (the hotkey
registry indeed receives no removed call). -/
theorem deleteFolder_leaves_child_attached :
    (lookupE (on_delete c6St [0] true).1.store 1).map Entity.parent =
      some (some 0) ∧
    (lookupE (on_delete c6St [0] true).1.store 0).map Entity.items =
      some [1] ∧
    (∀ k, Event.hotkeyRemoved k ∉ (on_delete c6St [0] true).2) := by
  refine ⟨by decide, by decide, ?_⟩
  intro k hk
  have : (on_delete c6St [0] true).2 =
      [Event.suspend, Event.removeData 0, Event.sortAscending, Event.reselect,
       Event.unsuspend, Event.configAltered false] := by decide
  rw [this] at hk
  rcases List.mem_cons.mp hk with h | h
  · cases h
  · rcases List.mem_cons.mp h with h | h
    · cases h
    · rcases List.mem_cons.mp h with h | h
      · cases h
      · rcases List.mem_cons.mp h with h | h
        · cases h
        · rcases List.mem_cons.mp h with h | h
          · cases h
          · rcases List.mem_cons.mp h with h | h
            · cases h
            · exact absurd h (List.not_mem_nil _)

/-- Claim C6 (witness for the amended theorem): on the Work/Signature
store the characterization applies (fuel 2, the folder subtree of id 0
with leaf 1), and since Signature's modes are empty it gets no removed
call. -/
theorem deleteHotkeys_exactly_hotkey_modes_witness :
    Event.hotkeyRemoved 1 ∉ deleteHotkeys 2 c6St.store 0 := by
  intro hmem
  have h := (deleteHotkeys_exactly_hotkey_modes 2 c6St.store
    (ETree.node 0 [] [1]) (by decide) (by decide)).1 1
  obtain ⟨-, e, he, hm⟩ := h.mp (by exact hmem)
  have he' : e = c6Phrase := by
    have hlk : lookupE c6St.store 1 = some c6Phrase := by decide
    rw [hlk] at he
    exact (Option.some.inj he).symm
  rw [he'] at hm
  cases hm

/-! ### Length and characterization lemmas for the move machinery -/

theorem length_add_folder (s : Store) (p c : Nat) :
    (add_folder s p c).length = s.length := by
  simp [add_folder, length_updateE]

theorem length_add_item (s : Store) (p c : Nat) :
    (add_item s p c).length = s.length := by
  simp [add_item, length_updateE]

theorem length_remove_folder (s : Store) (p c : Nat) :
    (remove_folder s p c).length = s.length := by
  simp [remove_folder, length_updateE]

theorem length_remove_item (s : Store) (p c : Nat) :
    (remove_item s p c).length = s.length := by
  simp [remove_item, length_updateE]

theorem clearPersistItems_spec : ∀ (js : List Nat) (s : Store),
    (clearPersistItems s js).2 = js.map Event.persist ∧
    (clearPersistItems s js).1.length = s.length ∧
    ∀ j, lookupE (clearPersistItems s js).1 j =
      if j ∈ js then (lookupE s j).map (fun e => { e with path := none })
      else lookupE s j := by
  intro js
  induction js with
  | nil =>
    intro s
    refine ⟨rfl, rfl, ?_⟩
    intro j
    simp [clearPersistItems]
  | cons j0 js ih =>
    intro s
    obtain ⟨hev, hlen, hlook⟩ :=
      ih (updateE s j0 (fun e => { e with path := none }))
    refine ⟨?_, ?_, ?_⟩
    · simp [clearPersistItems, hev]
    · simp [clearPersistItems, hlen, length_updateE]
    · intro j
      have hstep : (clearPersistItems s (j0 :: js)).1 =
          (clearPersistItems
            (updateE s j0 (fun e => { e with path := none })) js).1 := rfl
      rw [hstep, hlook j, lookupE_updateE]
      by_cases hj : j ∈ js
      · rw [if_pos hj,
          if_pos (show j ∈ j0 :: js from List.mem_cons_of_mem _ hj)]
        by_cases hj0 : j = j0
        · rw [if_pos hj0]
          cases lookupE s j <;> rfl
        · rw [if_neg hj0]
      · rw [if_neg hj]
        by_cases hj0 : j = j0
        · rw [if_pos hj0, if_pos (show j ∈ j0 :: js by simp [hj0])]
        · rw [if_neg hj0, if_neg (show j ∉ j0 :: js by simp [hj, hj0])]

theorem foldl_mru_eq (fuel : Nat) : ∀ (js : List Nat) (s : Store)
    (ev0 : List Event),
    js.foldl
      (fun acc j =>
        let r := moveRecurseUpdate fuel acc.1 j
        (r.1, acc.2 ++ r.2)) (s, ev0) =
      ((moveRecurseUpdateList fuel s js).1,
       ev0 ++ (moveRecurseUpdateList fuel s js).2) := by
  intro js
  induction js with
  | nil =>
    intro s ev0
    simp [moveRecurseUpdateList]
  | cons j js ih =>
    intro s ev0
    rw [List.foldl_cons, ih]
    simp [moveRecurseUpdateList]

theorem moveRecurseUpdate_length (fuel : Nat) : ∀ (s : Store) (i : Nat),
    (moveRecurseUpdate fuel s i).1.length = s.length := by
  induction fuel with
  | zero => intro s i; rfl
  | succ fuel ih =>
    have hlist : ∀ (js : List Nat) (s : Store),
        (moveRecurseUpdateList fuel s js).1.length = s.length := by
      intro js
      induction js with
      | nil => intro s; rfl
      | cons j js ihl =>
        intro s
        rw [moveRecurseUpdateList]
        simp only
        rw [ihl, ih]
    intro s i
    rw [moveRecurseUpdate]
    cases hl : lookupE s i with
    | none => rfl
    | some e =>
      simp only
      rw [foldl_mru_eq]
      simp only
      rw [(clearPersistItems_spec e.items _).2.1, hlist, length_updateE]

theorem map_clear_idem (o : Option Entity) :
    ((o.map (fun e => { e with path := none })).map
      (fun e => { e with path := none })) =
    o.map (fun e => { e with path := none }) := by
  cases o <;> rfl

theorem ids_node (i : Nat) (fs : List ETree) (its : List Nat) :
    (ETree.node i fs its).ids = i :: (ETree.idsList fs ++ its) := rfl

theorem idsList_cons (t : ETree) (ts : List ETree) :
    ETree.idsList (t :: ts) = t.ids ++ ETree.idsList ts := rfl

theorem height_node (i : Nat) (fs : List ETree) (its : List Nat) :
    (ETree.node i fs its).height = ETree.heightList fs + 1 := rfl

theorem heightList_cons (t : ETree) (ts : List ETree) :
    ETree.heightList (t :: ts) = max t.height (ETree.heightList ts) := rfl

theorem representsListB_cons (s : Store) (t : ETree) (ts : List ETree) :
    representsListB s (t :: ts) = (representsB s t && representsListB s ts) :=
  rfl

theorem representsB_of_shape_eq : ∀ (n : Nat) (t : ETree), t.height ≤ n →
    ∀ s s' : Store,
    (∀ j ∈ t.ids, (lookupE s' j).map eShape = (lookupE s j).map eShape) →
    representsB s t = true → representsB s' t = true := by
  intro n
  induction n with
  | zero =>
    intro t ht
    obtain ⟨i, fs, its⟩ := t
    rw [height_node] at ht
    omega
  | succ n ih =>
    intro t ht s s' h hrep
    obtain ⟨i, fs, its⟩ := t
    rw [height_node] at ht
    obtain ⟨e, hl, hke, hfold, hits, hlist, hleaf⟩ :=
      representsB_node_elim s i fs its hrep
    have hlistmono : ∀ ts : List ETree,
        (∀ t' ∈ ts, t'.height ≤ n) →
        (∀ t' ∈ ts, ∀ j ∈ t'.ids,
          (lookupE s' j).map eShape = (lookupE s j).map eShape) →
        representsListB s ts = true → representsListB s' ts = true := by
      intro ts
      induction ts with
      | nil => exact fun _ _ _ => rfl
      | cons t' ts2 ihl =>
        intro hh hcond hrep2
        rw [representsListB_cons, Bool.and_eq_true] at hrep2 ⊢
        refine ⟨ih t' (hh t' (by simp)) s s' (hcond t' (by simp)) hrep2.1, ?_⟩
        exact ihl (fun u hu => hh u (by simp [hu]))
          (fun u hu => hcond u (by simp [hu])) hrep2.2
    have hself := h i (by rw [ids_node]; simp)
    rw [hl] at hself
    cases h2 : lookupE s' i with
    | none => rw [h2] at hself; cases hself
    | some e' =>
      rw [h2] at hself
      have hsh := Option.some.inj hself
      rw [eShape, eShape] at hsh
      have hk' : e'.kind = e.kind := congrArg Prod.fst hsh
      have hf' : e'.folders = e.folders := congrArg (fun q => q.2.1) hsh
      have hi' : e'.items = e.items := congrArg (fun q => q.2.2) hsh
      rw [representsB, Bool.and_eq_true, Bool.and_eq_true]
      refine ⟨⟨?_, ?_⟩, ?_⟩
      · rw [h2]
        simp only [Bool.and_eq_true, decide_eq_true_eq]
        exact ⟨⟨hk'.trans hke, hf'.trans hfold⟩, hi'.trans hits⟩
      · refine hlistmono fs ?_ ?_ hlist
        · intro t' ht'
          have h1 := height_le_heightList t' fs ht'
          omega
        · intro t' ht' j hj
          refine h j ?_
          rw [ids_node]
          refine List.mem_cons_of_mem _ (List.mem_append_left _ ?_)
          exact (mem_idsList j fs).mpr ⟨t', ht', hj⟩
      · rw [List.all_eq_true]
        intro j hj
        have hjmem : j ∈ (ETree.node i fs its).ids := by
          rw [ids_node]
          exact List.mem_cons_of_mem _ (List.mem_append_right _ hj)
        have hjs := h j hjmem
        obtain ⟨c, hc, hck⟩ := hleaf j hj
        rw [hc] at hjs
        cases h3 : lookupE s' j with
        | none => rw [h3] at hjs; cases hjs
        | some c' =>
          rw [h3] at hjs
          have hsh2 := Option.some.inj hjs
          rw [eShape, eShape] at hsh2
          have hkc : c'.kind = c.kind := congrArg Prod.fst hsh2
          simp only [decide_eq_true_eq]
          rw [hkc]
          exact hck

theorem representsListB_of_shape_eq (s s' : Store)
    (h : ∀ j, (lookupE s' j).map eShape = (lookupE s j).map eShape) :
    ∀ fs : List ETree, representsListB s fs = true →
      representsListB s' fs = true := by
  intro fs
  induction fs with
  | nil => intro; rfl
  | cons t ts ih =>
    intro hrep
    rw [representsListB, Bool.and_eq_true] at hrep ⊢
    exact ⟨representsB_of_shape_eq t.height t (le_refl _) s s'
      (fun j _ => h j) hrep.1, ih hrep.2⟩

theorem moveRecurseUpdate_spec : ∀ (fuel : Nat) (t : ETree) (s : Store),
    representsB s t = true → t.height ≤ fuel →
    (moveRecurseUpdate fuel s t.rootId).2 = t.ids.map Event.persist ∧
    ∀ j, lookupE (moveRecurseUpdate fuel s t.rootId).1 j =
      if j ∈ t.ids then
        (lookupE s j).map (fun e => { e with path := none })
      else lookupE s j := by
  intro fuel
  induction fuel with
  | zero =>
    intro t s hrep hfuel
    obtain ⟨i, fs, its⟩ := t
    rw [ETree.height] at hfuel
    omega
  | succ fuel ih =>
    have hlistspec : ∀ (fs' : List ETree) (s0 : Store),
        representsListB s0 fs' = true → ETree.heightList fs' ≤ fuel →
        (moveRecurseUpdateList fuel s0 (fs'.map ETree.rootId)).2 =
          (ETree.idsList fs').map Event.persist ∧
        ∀ j, lookupE (moveRecurseUpdateList fuel s0 (fs'.map ETree.rootId)).1 j =
          if j ∈ ETree.idsList fs' then
            (lookupE s0 j).map (fun e => { e with path := none })
          else lookupE s0 j := by
      intro fs'
      induction fs' with
      | nil =>
        intro s0 _ _
        refine ⟨rfl, ?_⟩
        intro j
        rw [ETree.idsList]
        simp [moveRecurseUpdateList]
      | cons t' ts ihl =>
        intro s0 hrepl hhl
        rw [representsListB, Bool.and_eq_true] at hrepl
        rw [ETree.heightList] at hhl
        obtain ⟨hev1, hlook1⟩ := ih t' s0 hrepl.1 (by omega)
        have hshape : ∀ j, (lookupE (moveRecurseUpdate fuel s0 t'.rootId).1 j).map
            eShape = (lookupE s0 j).map eShape := by
          intro j
          rw [hlook1 j]
          by_cases hj : j ∈ t'.ids
          · rw [if_pos hj]
            cases lookupE s0 j <;> rfl
          · rw [if_neg hj]
        have hrep2 : representsListB (moveRecurseUpdate fuel s0 t'.rootId).1 ts
            = true := representsListB_of_shape_eq _ _ hshape ts hrepl.2
        obtain ⟨hev2, hlook2⟩ :=
          ihl (moveRecurseUpdate fuel s0 t'.rootId).1 hrep2 (by omega)
        have hunf : moveRecurseUpdateList fuel s0 ((t' :: ts).map ETree.rootId) =
            ((moveRecurseUpdateList fuel (moveRecurseUpdate fuel s0 t'.rootId).1
                (ts.map ETree.rootId)).1,
             (moveRecurseUpdate fuel s0 t'.rootId).2 ++
               (moveRecurseUpdateList fuel (moveRecurseUpdate fuel s0 t'.rootId).1
                 (ts.map ETree.rootId)).2) := by
          rw [List.map_cons, moveRecurseUpdateList]
        refine ⟨?_, ?_⟩
        · rw [hunf]
          simp only
          rw [hev1, hev2, ETree.idsList, List.map_append]
        · intro j
          rw [hunf]
          simp only
          rw [hlook2 j, ETree.idsList]
          by_cases hj2 : j ∈ ETree.idsList ts
          · rw [if_pos hj2, hlook1 j,
              if_pos (List.mem_append_right _ hj2)]
            by_cases hj1 : j ∈ t'.ids
            · rw [if_pos hj1]
              exact map_clear_idem _
            · rw [if_neg hj1]
          · rw [if_neg hj2, hlook1 j]
            by_cases hj1 : j ∈ t'.ids
            · rw [if_pos hj1, if_pos (List.mem_append_left _ hj1)]
            · rw [if_neg hj1, if_neg (by
                intro hc
                rcases List.mem_append.mp hc with hc | hc
                · exact hj1 hc
                · exact hj2 hc)]
    intro t s hrep hfuel
    obtain ⟨i, fs, its⟩ := t
    rw [ETree.height] at hfuel
    obtain ⟨e, hl, hke, hfold, hits, hlist, hleaf⟩ :=
      representsB_node_elim s i fs its hrep
    have hunf : moveRecurseUpdate (fuel + 1) s (ETree.node i fs its).rootId =
        ((clearPersistItems
            (moveRecurseUpdateList fuel
              (updateE s i (fun e' => { e' with path := none })) e.folders).1
            e.items).1,
         Event.persist i ::
           ([] ++ (moveRecurseUpdateList fuel
             (updateE s i (fun e' => { e' with path := none })) e.folders).2) ++
           (clearPersistItems
             (moveRecurseUpdateList fuel
               (updateE s i (fun e' => { e' with path := none })) e.folders).1
             e.items).2) := by
      rw [ETree.rootId, moveRecurseUpdate, hl]
      simp only
      rw [foldl_mru_eq]
    rw [hfold, hits] at hunf
    set s1 := updateE s i (fun e' => { e' with path := none }) with hs1
    have hshape1 : ∀ j, (lookupE s1 j).map eShape = (lookupE s j).map eShape := by
      intro j
      rw [hs1, lookupE_updateE]
      by_cases hj : j = i
      · rw [if_pos hj]
        cases lookupE s j <;> rfl
      · rw [if_neg hj]
    have hrepl1 : representsListB s1 fs = true :=
      representsListB_of_shape_eq _ _ hshape1 fs hlist
    obtain ⟨hevL, hlookL⟩ := hlistspec fs s1 hrepl1 (by omega)
    obtain ⟨hevC, hlenC, hlookC⟩ :=
      clearPersistItems_spec its
        (moveRecurseUpdateList fuel s1 (fs.map ETree.rootId)).1
    have hcomp : ∀ j,
        lookupE (moveRecurseUpdateList fuel s1 (fs.map ETree.rootId)).1 j =
        if j = i ∨ j ∈ ETree.idsList fs then
          (lookupE s j).map (fun e' => { e' with path := none })
        else lookupE s j := by
      intro j
      rw [hlookL j]
      by_cases hfs : j ∈ ETree.idsList fs
      · rw [if_pos hfs, if_pos (Or.inr hfs), hs1, lookupE_updateE]
        by_cases hji : j = i
        · rw [if_pos hji]
          exact map_clear_idem _
        · rw [if_neg hji]
      · rw [if_neg hfs, hs1, lookupE_updateE]
        by_cases hji : j = i
        · rw [if_pos hji, if_pos (Or.inl hji)]
        · rw [if_neg hji, if_neg (by tauto)]
    constructor
    · rw [hunf]
      simp only
      rw [hevL, hevC, ETree.ids]
      simp [List.map_append]
    · intro j
      rw [hunf]
      simp only
      rw [hlookC j, hcomp j, ETree.ids]
      have hmem : j ∈ i :: (ETree.idsList fs ++ its) ↔
          (j = i ∨ j ∈ ETree.idsList fs) ∨ j ∈ its := by
        simp only [List.mem_cons, List.mem_append]
        tauto
      by_cases hits' : j ∈ its
      · rw [if_pos hits']
        by_cases hor : j = i ∨ j ∈ ETree.idsList fs
        · rw [if_pos hor, if_pos (hmem.mpr (Or.inl hor)), map_clear_idem]
        · rw [if_neg hor, if_pos (hmem.mpr (Or.inr hits'))]
      · rw [if_neg hits']
        by_cases hor : j = i ∨ j ∈ ETree.idsList fs
        · rw [if_pos hor, if_pos (hmem.mpr (Or.inl hor))]
        · rw [if_neg hor, if_neg (by
            intro hc
            rcases hmem.mp hc with hc | hc
            · exact hor hc
            · exact hits' hc)]

theorem rootId_mem_ids (t : ETree) : t.rootId ∈ t.ids := by
  obtain ⟨i, fs, its⟩ := t
  rw [ETree.rootId, ids_node]
  simp

theorem srcId_mem_allIds (d : SrcDesc) : d.srcId ∈ d.allIds := by
  cases d with
  | leafSrc i op => simp [SrcDesc.srcId, SrcDesc.allIds]
  | folderSrc t op =>
    rw [SrcDesc.srcId, SrcDesc.allIds]
    exact rootId_mem_ids t

theorem moveStep_folder_spec (st : AppState) (targetId : Nat) (t : ETree)
    (op : Option Nat) (e : Entity)
    (hl : lookupE st.store t.rootId = some e)
    (hpe : e.parent = op)
    (hrep : representsB st.store t = true)
    (hh : t.height ≤ st.store.length + 1)
    (htgt : targetId ∉ t.ids)
    (hpo : ∀ p, op = some p → p ∉ t.ids ∧ p ≠ targetId) :
    (moveStep st targetId t.rootId).1.store.length = st.store.length ∧
    (moveStep st targetId t.rootId).1.cutCopied = st.cutCopied ∧
    (op = none → (moveStep st targetId t.rootId).1.rootFolders =
      st.rootFolders.erase t.rootId) ∧
    (∀ p, op = some p → (moveStep st targetId t.rootId).1.rootFolders =
      st.rootFolders) ∧
    lookupE (moveStep st targetId t.rootId).1.store t.rootId =
      some { e with parent := some targetId, path := none } ∧
    (∀ te, lookupE st.store targetId = some te →
      lookupE (moveStep st targetId t.rootId).1.store targetId =
        some { te with folders := te.folders ++ [t.rootId] }) ∧
    (∀ p, op = some p → ∀ pe, lookupE st.store p = some pe →
      lookupE (moveStep st targetId t.rootId).1.store p =
        some { pe with folders := pe.folders.erase t.rootId }) ∧
    (∀ j ∈ t.ids, j ≠ t.rootId →
      lookupE (moveStep st targetId t.rootId).1.store j =
        (lookupE st.store j).map (fun e' => { e' with path := none })) ∧
    (∀ j, j ∉ t.ids → j ≠ targetId → (∀ p, op = some p → j ≠ p) →
      lookupE (moveStep st targetId t.rootId).1.store j =
        lookupE st.store j) ∧
    (moveStep st targetId t.rootId).2 =
      deleteHotkeys (st.store.length + 1) st.store t.rootId ++
      [Event.removeData t.rootId, Event.sortAscending, Event.reselect] ++
      t.ids.map Event.persist := by
  have hiid := rootId_mem_ids t
  have htgs : targetId ≠ t.rootId := fun h => htgt (h ▸ hiid)
  have hke : e.kind = EntityKind.folder := by
    obtain ⟨i, fs, its⟩ := t
    obtain ⟨e0, hl0, hke0, _, _, _, _⟩ :=
      representsB_node_elim st.store i fs its hrep
    rw [ETree.rootId] at hl
    rw [hl0] at hl
    cases Option.some.inj hl
    exact hke0
  -- the state after __removeItem, per parent case
  cases hop : op with
  | none =>
    have hpen : e.parent = none := by rw [hpe, hop]
    have hr0 : removeItem st t.rootId =
        ({ st with rootFolders := st.rootFolders.erase t.rootId },
         deleteHotkeys (st.store.length + 1) st.store t.rootId ++
           [Event.removeData t.rootId, Event.sortAscending, Event.reselect]) := by
      unfold removeItem
      rw [hl]
      simp only [hpen]
    have hstep : moveStep st targetId t.rootId =
        ({ st with
            rootFolders := st.rootFolders.erase t.rootId,
            store := (moveRecurseUpdate
              ((add_folder st.store targetId t.rootId).length + 1)
              (add_folder st.store targetId t.rootId) t.rootId).1 },
         (deleteHotkeys (st.store.length + 1) st.store t.rootId ++
           [Event.removeData t.rootId, Event.sortAscending, Event.reselect]) ++
           (moveRecurseUpdate
             ((add_folder st.store targetId t.rootId).length + 1)
             (add_folder st.store targetId t.rootId) t.rootId).2) := by
      unfold moveStep
      rw [hr0]
      simp only
      rw [hl]
      simp only [hke, if_true]
    set s1 := add_folder st.store targetId t.rootId with hs1
    have hlen1 : s1.length = st.store.length := by
      rw [hs1, length_add_folder]
    have hlook1 : ∀ j, lookupE s1 j =
        if j = t.rootId then
          (lookupE st.store j).map (fun e' => { e' with parent := some targetId })
        else if j = targetId then
          (lookupE st.store j).map
            (fun e' => { e' with folders := e'.folders ++ [t.rootId] })
        else lookupE st.store j := by
      intro j
      rw [hs1]
      exact lookupE_add_folder st.store targetId t.rootId j htgs
    have hcond : ∀ j ∈ t.ids,
        (lookupE s1 j).map eShape = (lookupE st.store j).map eShape := by
      intro j hj
      have hjt : ¬ j = targetId := by
        intro h
        rw [h] at hj
        exact htgt hj
      rw [hlook1 j]
      by_cases hji : j = t.rootId
      · rw [if_pos hji]
        cases lookupE st.store j <;> rfl
      · rw [if_neg hji, if_neg hjt]
    have hrep1 : representsB s1 t = true :=
      representsB_of_shape_eq t.height t (le_refl _) st.store s1 hcond hrep
    obtain ⟨hev2, hlook2⟩ :=
      moveRecurseUpdate_spec (s1.length + 1) t s1 hrep1 (by omega)
    refine ⟨?_, ?_, ?_, ?_, ?_, ?_, ?_, ?_, ?_, ?_⟩
    · rw [hstep]
      simp only
      rw [moveRecurseUpdate_length, hlen1]
    · rw [hstep]
    · intro _
      rw [hstep]
    · intro p hp
      cases hp
    · rw [hstep]
      simp only
      rw [hlook2 t.rootId, if_pos hiid, hlook1 t.rootId, if_pos rfl, hl]
      rfl
    · intro te hte
      rw [hstep]
      simp only
      rw [hlook2 targetId, if_neg htgt, hlook1 targetId, if_neg htgs,
        if_pos rfl, hte]
      rfl
    · intro p hp
      cases hp
    · intro j hj hji
      have hjt : ¬ j = targetId := by
        intro h
        rw [h] at hj
        exact htgt hj
      rw [hstep]
      simp only
      rw [hlook2 j, if_pos hj, hlook1 j, if_neg hji, if_neg hjt]
    · intro j hj hjt _
      have hji : ¬ j = t.rootId := by
        intro h
        rw [h] at hj
        exact hj hiid
      rw [hstep]
      simp only
      rw [hlook2 j, if_neg hj, hlook1 j, if_neg hji, if_neg hjt]
    · rw [hstep]
      simp only
      rw [hev2]
  | some p =>
    obtain ⟨hpni, hpnt⟩ := hpo p hop
    have hpi : p ≠ t.rootId := fun h => hpni (h ▸ hiid)
    have hpes : e.parent = some p := by rw [hpe, hop]
    have hr0 : removeItem st t.rootId =
        ({ st with store := remove_folder st.store p t.rootId },
         deleteHotkeys (st.store.length + 1) st.store t.rootId ++
           [Event.removeData t.rootId, Event.sortAscending, Event.reselect]) := by
      unfold removeItem
      rw [hl]
      simp only [hpes, hke, if_true]
    have hlookA : ∀ j, lookupE (remove_folder st.store p t.rootId) j =
        if j = p then
          (lookupE st.store j).map
            (fun pe => { pe with folders := pe.folders.erase t.rootId })
        else lookupE st.store j := by
      intro j
      unfold remove_folder
      rw [lookupE_updateE]
    have hlookAi : lookupE (remove_folder st.store p t.rootId) t.rootId =
        some e := by
      rw [hlookA, if_neg (Ne.symm hpi), hl]
    have hlenA : (remove_folder st.store p t.rootId).length =
        st.store.length := length_remove_folder _ _ _
    have hstep : moveStep st targetId t.rootId =
        ({ st with
            store := (moveRecurseUpdate
              ((add_folder (remove_folder st.store p t.rootId) targetId
                t.rootId).length + 1)
              (add_folder (remove_folder st.store p t.rootId) targetId
                t.rootId) t.rootId).1 },
         (deleteHotkeys (st.store.length + 1) st.store t.rootId ++
           [Event.removeData t.rootId, Event.sortAscending, Event.reselect]) ++
           (moveRecurseUpdate
             ((add_folder (remove_folder st.store p t.rootId) targetId
               t.rootId).length + 1)
             (add_folder (remove_folder st.store p t.rootId) targetId
               t.rootId) t.rootId).2) := by
      unfold moveStep
      rw [hr0]
      simp only
      rw [hlookAi]
      simp only [hke, if_true]
    set s1 := add_folder (remove_folder st.store p t.rootId) targetId t.rootId
      with hs1
    have hlen1 : s1.length = st.store.length := by
      rw [hs1, length_add_folder, hlenA]
    have hlook1 : ∀ j, lookupE s1 j =
        if j = t.rootId then
          (lookupE st.store j).map (fun e' => { e' with parent := some targetId })
        else if j = targetId then
          (lookupE st.store j).map
            (fun e' => { e' with folders := e'.folders ++ [t.rootId] })
        else if j = p then
          (lookupE st.store j).map
            (fun pe => { pe with folders := pe.folders.erase t.rootId })
        else lookupE st.store j := by
      intro j
      rw [hs1, lookupE_add_folder _ targetId t.rootId j htgs]
      by_cases hji : j = t.rootId
      · have hjp : ¬ j = p := by
          intro h
          rw [h] at hji
          exact hpi hji
        rw [if_pos hji, if_pos hji, hlookA, if_neg hjp]
      · rw [if_neg hji, if_neg hji]
        by_cases hjt : j = targetId
        · have hjp : ¬ j = p := by
            intro h
            rw [h] at hjt
            exact hpnt hjt
          rw [if_pos hjt, if_pos hjt, hlookA, if_neg hjp]
        · rw [if_neg hjt, if_neg hjt, hlookA]
    have hcond : ∀ j ∈ t.ids,
        (lookupE s1 j).map eShape = (lookupE st.store j).map eShape := by
      intro j hj
      have hjt : ¬ j = targetId := by
        intro h
        rw [h] at hj
        exact htgt hj
      have hjp : ¬ j = p := by
        intro h
        rw [h] at hj
        exact hpni hj
      rw [hlook1 j]
      by_cases hji : j = t.rootId
      · rw [if_pos hji]
        cases lookupE st.store j <;> rfl
      · rw [if_neg hji, if_neg hjt, if_neg hjp]
    have hrep1 : representsB s1 t = true :=
      representsB_of_shape_eq t.height t (le_refl _) st.store s1 hcond hrep
    obtain ⟨hev2, hlook2⟩ :=
      moveRecurseUpdate_spec (s1.length + 1) t s1 hrep1 (by omega)
    refine ⟨?_, ?_, ?_, ?_, ?_, ?_, ?_, ?_, ?_, ?_⟩
    · rw [hstep]
      simp only
      rw [moveRecurseUpdate_length, hlen1]
    · rw [hstep]
    · intro h
      cases h
    · intro p' hp'
      rw [hstep]
    · rw [hstep]
      simp only
      rw [hlook2 t.rootId, if_pos hiid, hlook1 t.rootId, if_pos rfl, hl]
      rfl
    · intro te hte
      rw [hstep]
      simp only
      rw [hlook2 targetId, if_neg htgt, hlook1 targetId, if_neg htgs,
        if_pos rfl, hte]
      rfl
    · intro p' hp' pe hpe'
      have hpp : p' = p := (Option.some.inj hp').symm
      subst hpp
      rw [hstep]
      simp only
      rw [hlook2 p', if_neg hpni, hlook1 p', if_neg hpi, if_neg hpnt,
        if_pos rfl, hpe']
      rfl
    · intro j hj hji
      have hjt : ¬ j = targetId := by
        intro h
        rw [h] at hj
        exact htgt hj
      have hjp : ¬ j = p := by
        intro h
        rw [h] at hj
        exact hpni hj
      rw [hstep]
      simp only
      rw [hlook2 j, if_pos hj, hlook1 j, if_neg hji, if_neg hjt, if_neg hjp]
    · intro j hj hjt hjp
      have hji : ¬ j = t.rootId := by
        intro h
        rw [h] at hj
        exact hj hiid
      rw [hstep]
      simp only
      rw [hlook2 j, if_neg hj, hlook1 j, if_neg hji, if_neg hjt,
        if_neg (hjp p rfl)]
    · rw [hstep]
      simp only
      rw [hev2]

theorem moveStep_leaf_spec (st : AppState) (targetId i : Nat)
    (op : Option Nat) (e : Entity)
    (hl : lookupE st.store i = some e)
    (hpe : e.parent = op)
    (hke : ¬ e.kind = EntityKind.folder)
    (htgs : targetId ≠ i)
    (hpo : ∀ p, op = some p → p ≠ i ∧ p ≠ targetId) :
    (moveStep st targetId i).1.store.length = st.store.length ∧
    (moveStep st targetId i).1.cutCopied = st.cutCopied ∧
    (op = none →
      (moveStep st targetId i).1.rootFolders = st.rootFolders.erase i) ∧
    (∀ p, op = some p →
      (moveStep st targetId i).1.rootFolders = st.rootFolders) ∧
    lookupE (moveStep st targetId i).1.store i =
      some { e with parent := some targetId, path := none } ∧
    (∀ te, lookupE st.store targetId = some te →
      lookupE (moveStep st targetId i).1.store targetId =
        some { te with items := te.items ++ [i] }) ∧
    (∀ p, op = some p → ∀ pe, lookupE st.store p = some pe →
      lookupE (moveStep st targetId i).1.store p =
        some { pe with items := pe.items.erase i }) ∧
    (∀ j, j ≠ i → j ≠ targetId → (∀ p, op = some p → j ≠ p) →
      lookupE (moveStep st targetId i).1.store j = lookupE st.store j) ∧
    (moveStep st targetId i).2 =
      deleteHotkeys (st.store.length + 1) st.store i ++
      [Event.removeData i, Event.sortAscending, Event.reselect] ++
      [Event.persist i] := by
  cases hop : op with
  | none =>
    have hpen : e.parent = none := by rw [hpe, hop]
    have hr0 : removeItem st i =
        ({ st with rootFolders := st.rootFolders.erase i },
         deleteHotkeys (st.store.length + 1) st.store i ++
           [Event.removeData i, Event.sortAscending, Event.reselect]) := by
      unfold removeItem
      rw [hl]
      simp only [hpen]
    have hstep : moveStep st targetId i =
        ({ st with
            rootFolders := st.rootFolders.erase i,
            store := updateE (add_item st.store targetId i) i
              (fun e' => { e' with path := none }) },
         (deleteHotkeys (st.store.length + 1) st.store i ++
           [Event.removeData i, Event.sortAscending, Event.reselect]) ++
           [Event.persist i]) := by
      unfold moveStep
      rw [hr0]
      simp only
      rw [hl]
      simp only [hke, if_false]
    have hlook1 : ∀ j, lookupE (add_item st.store targetId i) j =
        if j = i then
          (lookupE st.store j).map (fun e' => { e' with parent := some targetId })
        else if j = targetId then
          (lookupE st.store j).map
            (fun e' => { e' with items := e'.items ++ [i] })
        else lookupE st.store j := fun j =>
      lookupE_add_item st.store targetId i j htgs
    refine ⟨?_, ?_, ?_, ?_, ?_, ?_, ?_, ?_, ?_⟩
    · rw [hstep]
      simp only
      rw [length_updateE, length_add_item]
    · rw [hstep]
    · intro _
      rw [hstep]
    · intro p hp
      cases hp
    · rw [hstep]
      simp only
      rw [lookupE_updateE, if_pos rfl, hlook1 i, if_pos rfl, hl]
      rfl
    · intro te hte
      rw [hstep]
      simp only
      rw [lookupE_updateE, if_neg htgs, hlook1 targetId,
        if_neg htgs, if_pos rfl, hte]
      rfl
    · intro p hp
      cases hp
    · intro j hji hjt _
      rw [hstep]
      simp only
      rw [lookupE_updateE, if_neg hji, hlook1 j, if_neg hji, if_neg hjt]
    · rw [hstep]
  | some p =>
    obtain ⟨hpi, hpnt⟩ := hpo p hop
    have hpes : e.parent = some p := by rw [hpe, hop]
    have hr0 : removeItem st i =
        ({ st with store := remove_item st.store p i },
         deleteHotkeys (st.store.length + 1) st.store i ++
           [Event.removeData i, Event.sortAscending, Event.reselect]) := by
      unfold removeItem
      rw [hl]
      simp only [hpes, hke, if_false]
    have hlookA : ∀ j, lookupE (remove_item st.store p i) j =
        if j = p then
          (lookupE st.store j).map
            (fun pe => { pe with items := pe.items.erase i })
        else lookupE st.store j := by
      intro j
      unfold remove_item
      rw [lookupE_updateE]
    have hlookAi : lookupE (remove_item st.store p i) i = some e := by
      rw [hlookA, if_neg (Ne.symm hpi), hl]
    have hstep : moveStep st targetId i =
        ({ st with
            store := updateE
              (add_item (remove_item st.store p i) targetId i) i
              (fun e' => { e' with path := none }) },
         (deleteHotkeys (st.store.length + 1) st.store i ++
           [Event.removeData i, Event.sortAscending, Event.reselect]) ++
           [Event.persist i]) := by
      unfold moveStep
      rw [hr0]
      simp only
      rw [hlookAi]
      simp only [hke, if_false]
    have hlook1 : ∀ j, lookupE (add_item (remove_item st.store p i) targetId i) j =
        if j = i then
          (lookupE st.store j).map (fun e' => { e' with parent := some targetId })
        else if j = targetId then
          (lookupE st.store j).map
            (fun e' => { e' with items := e'.items ++ [i] })
        else if j = p then
          (lookupE st.store j).map
            (fun pe => { pe with items := pe.items.erase i })
        else lookupE st.store j := by
      intro j
      rw [lookupE_add_item _ targetId i j htgs]
      by_cases hji : j = i
      · have hjp : ¬ j = p := by
          intro h
          rw [h] at hji
          exact hpi hji
        rw [if_pos hji, if_pos hji, hlookA, if_neg hjp]
      · rw [if_neg hji, if_neg hji]
        by_cases hjt : j = targetId
        · have hjp : ¬ j = p := by
            intro h
            rw [h] at hjt
            exact hpnt hjt
          rw [if_pos hjt, if_pos hjt, hlookA, if_neg hjp]
        · rw [if_neg hjt, if_neg hjt, hlookA]
    refine ⟨?_, ?_, ?_, ?_, ?_, ?_, ?_, ?_, ?_⟩
    · rw [hstep]
      simp only
      rw [length_updateE, length_add_item, length_remove_item]
    · rw [hstep]
    · intro h
      cases h
    · intro p' hp'
      rw [hstep]
    · rw [hstep]
      simp only
      rw [lookupE_updateE, if_pos rfl, hlook1 i, if_pos rfl, hl]
      rfl
    · intro te hte
      rw [hstep]
      simp only
      rw [lookupE_updateE, if_neg htgs, hlook1 targetId,
        if_neg htgs, if_pos rfl, hte]
      rfl
    · intro p' hp' pe hpe'
      have hpp : p' = p := (Option.some.inj hp').symm
      subst hpp
      rw [hstep]
      simp only
      rw [lookupE_updateE, if_neg hpi, hlook1 p',
        if_neg hpi, if_neg hpnt, if_pos rfl, hpe']
      rfl
    · intro j hji hjt hjp
      rw [hstep]
      simp only
      rw [lookupE_updateE, if_neg hji, hlook1 j, if_neg hji, if_neg hjt,
        if_neg (hjp p rfl)]
    · rw [hstep]

theorem donePost_mono (st : AppState) (targetId : Nat) (evs evs' : List Event)
    (d : SrcDesc) (h : donePost st targetId evs d)
    (hsub : ∀ ev ∈ evs, ev ∈ evs') : donePost st targetId evs' d := by
  obtain ⟨h1, h2, h3, h4, h5⟩ := h
  refine ⟨h1, h2, h3, h4, ?_⟩
  cases d with
  | leafSrc i op => exact hsub _ h5
  | folderSrc t op =>
    intro j hj
    obtain ⟨hev, hex⟩ := h5 j hj
    exact ⟨hsub _ hev, hex⟩

theorem representsB_ids_isSome : ∀ (n : Nat) (t : ETree), t.height ≤ n →
    ∀ s : Store, representsB s t = true →
    ∀ j ∈ t.ids, (lookupE s j).isSome = true := by
  intro n
  induction n with
  | zero =>
    intro t ht
    obtain ⟨i, fs, its⟩ := t
    rw [height_node] at ht
    omega
  | succ n ih =>
    intro t ht s hrep j hj
    obtain ⟨i, fs, its⟩ := t
    rw [height_node] at ht
    obtain ⟨e, hl, _, _, _, hlist, hleaf⟩ :=
      representsB_node_elim s i fs its hrep
    rw [ids_node] at hj
    rcases List.mem_cons.mp hj with hj | hj
    · subst hj
      rw [hl]
      rfl
    · rcases List.mem_append.mp hj with hj | hj
      · obtain ⟨t', ht', hjt⟩ := (mem_idsList j fs).mp hj
        have hh' : t'.height ≤ n := by
          have := height_le_heightList t' fs ht'
          omega
        exact ih t' hh' s (representsListB_mem s fs t' hlist ht') j hjt
      · obtain ⟨c, hc, _⟩ := hleaf j hj
        rw [hc]
        rfl

theorem moveStep_frame (st : AppState) (targetId : Nat) (d : SrcDesc)
    (hok : curOk st d)
    (htgt : targetId ∉ d.allIds)
    (hpo : ∀ p, d.oldP = some p → p ∉ d.allIds ∧ p ≠ targetId) :
    (moveStep st targetId d.srcId).1.store.length = st.store.length ∧
    (moveStep st targetId d.srcId).1.cutCopied = st.cutCopied ∧
    (∀ b, b ≠ d.srcId →
      (moveStep st targetId d.srcId).1.rootFolders.count b =
        st.rootFolders.count b) ∧
    (∀ b, b ≠ d.srcId → b ∉ st.rootFolders →
      b ∉ (moveStep st targetId d.srcId).1.rootFolders) ∧
    (∀ j, j ∉ d.allIds → j ≠ targetId →
      (∀ p, d.oldP = some p → j ≠ p) →
      lookupE (moveStep st targetId d.srcId).1.store j =
        lookupE st.store j) ∧
    (∀ j, j ∉ d.allIds → j ≠ targetId →
      lookupE (moveStep st targetId d.srcId).1.store j = lookupE st.store j ∨
      ∃ pe, lookupE st.store j = some pe ∧
        lookupE (moveStep st targetId d.srcId).1.store j = some
          (match d with
           | SrcDesc.leafSrc _ _ => { pe with items := pe.items.erase d.srcId }
           | SrcDesc.folderSrc _ _ =>
             { pe with folders := pe.folders.erase d.srcId })) ∧
    (∀ te, lookupE st.store targetId = some te →
      lookupE (moveStep st targetId d.srcId).1.store targetId = some
        (match d with
         | SrcDesc.leafSrc _ _ => { te with items := te.items ++ [d.srcId] }
         | SrcDesc.folderSrc _ _ =>
           { te with folders := te.folders ++ [d.srcId] })) ∧
    (∀ k, Event.removeData k ∈ (moveStep st targetId d.srcId).2 ↔
      k = d.srcId) := by
  have hmem := srcId_mem_allIds d
  cases d with
  | leafSrc i op =>
    obtain ⟨⟨e, hl, hkind, hpe⟩, hcnt⟩ := hok
    simp only [SrcDesc.srcId, SrcDesc.allIds, SrcDesc.oldP] at htgt hpo hmem hcnt ⊢
    have htgs : targetId ≠ i := by
      intro h
      rw [h] at htgt
      simp at htgt
    have hpo' : ∀ p, op = some p → p ≠ i ∧ p ≠ targetId := by
      intro p hp
      obtain ⟨h1, h2⟩ := hpo p hp
      exact ⟨by simpa using h1, h2⟩
    obtain ⟨hA, hB, hC1, hC2, hE, hT, hP, hF, hEv⟩ :=
      moveStep_leaf_spec st targetId i op e hl hpe hkind htgs hpo'
    refine ⟨hA, hB, ?_, ?_, ?_, ?_, ?_, ?_⟩
    · intro b hb
      cases hop : op with
      | none =>
        rw [hC1 hop]
        exact List.count_erase_of_ne hb _
      | some p => rw [hC2 p hop]
    · intro b hb hnm
      cases hop : op with
      | none =>
        rw [hC1 hop]
        intro hc
        exact hnm (List.mem_of_mem_erase hc)
      | some p =>
        rw [hC2 p hop]
        exact hnm
    · intro j hj hjt hjp
      have hji : j ≠ i := by
        intro h
        rw [h] at hj
        simp at hj
      exact hF j hji hjt hjp
    · intro j hj hjt
      have hji : j ≠ i := by
        intro h
        rw [h] at hj
        simp at hj
      cases hop : op with
      | none =>
        exact Or.inl (hF j hji hjt (by intro p hp; rw [hop] at hp; cases hp))
      | some p =>
        rw [hop] at hcnt
        by_cases hjp : j = p
        · subst hjp
          obtain ⟨pe, hpe2, _⟩ := hcnt
          exact Or.inr ⟨pe, hpe2, hP j hop pe hpe2⟩
        · exact Or.inl (hF j hji hjt (by
            intro p' hp'
            rw [hop] at hp'
            cases Option.some.inj hp'
            exact hjp))
    · exact hT
    · intro k
      rw [hEv]
      constructor
      · intro hk
        rcases List.mem_append.mp hk with hk | hk
        · rcases List.mem_append.mp hk with hk | hk
          · obtain ⟨m, hm⟩ :=
              deleteHotkeys_events_are_hotkeyRemoved (st.store.length + 1)
                st.store i _ hk
            cases hm
          · rcases List.mem_cons.mp hk with hk | hk
            · exact (Event.removeData.inj hk)
            · rcases List.mem_cons.mp hk with hk | hk
              · cases hk
              · rcases List.mem_cons.mp hk with hk | hk
                · cases hk
                · exact absurd hk (List.not_mem_nil _)
        · rcases List.mem_cons.mp hk with hk | hk
          · cases hk
          · exact absurd hk (List.not_mem_nil _)
      · intro hk
        subst hk
        exact List.mem_append_left _
          (List.mem_append_right _ (by simp))
  | folderSrc t op =>
    obtain ⟨⟨hrep, hh, e, hl, hpe⟩, hcnt⟩ := hok
    simp only [SrcDesc.srcId, SrcDesc.allIds, SrcDesc.oldP] at htgt hpo hmem hcnt ⊢
    have hpo' : ∀ p, op = some p → p ∉ t.ids ∧ p ≠ targetId := hpo
    obtain ⟨hA, hB, hC1, hC2, hE, hT, hP, hSub, hF, hEv⟩ :=
      moveStep_folder_spec st targetId t op e hl hpe hrep hh htgt hpo'
    refine ⟨hA, hB, ?_, ?_, ?_, ?_, ?_, ?_⟩
    · intro b hb
      cases hop : op with
      | none =>
        rw [hC1 hop]
        exact List.count_erase_of_ne hb _
      | some p => rw [hC2 p hop]
    · intro b hb hnm
      cases hop : op with
      | none =>
        rw [hC1 hop]
        intro hc
        exact hnm (List.mem_of_mem_erase hc)
      | some p =>
        rw [hC2 p hop]
        exact hnm
    · intro j hj hjt hjp
      exact hF j hj hjt hjp
    · intro j hj hjt
      cases hop : op with
      | none =>
        exact Or.inl (hF j hj hjt (by intro p hp; rw [hop] at hp; cases hp))
      | some p =>
        rw [hop] at hcnt
        by_cases hjp : j = p
        · subst hjp
          obtain ⟨pe, hpe2, _⟩ := hcnt
          exact Or.inr ⟨pe, hpe2, hP j hop pe hpe2⟩
        · exact Or.inl (hF j hj hjt (by
            intro p' hp'
            rw [hop] at hp'
            cases Option.some.inj hp'
            exact hjp))
    · exact hT
    · intro k
      rw [hEv]
      constructor
      · intro hk
        rcases List.mem_append.mp hk with hk | hk
        · rcases List.mem_append.mp hk with hk | hk
          · obtain ⟨m, hm⟩ :=
              deleteHotkeys_events_are_hotkeyRemoved (st.store.length + 1)
                st.store t.rootId _ hk
            cases hm
          · rcases List.mem_cons.mp hk with hk | hk
            · exact (Event.removeData.inj hk)
            · rcases List.mem_cons.mp hk with hk | hk
              · cases hk
              · rcases List.mem_cons.mp hk with hk | hk
                · cases hk
                · exact absurd hk (List.not_mem_nil _)
        · rw [List.mem_map] at hk
          obtain ⟨m, _, hm⟩ := hk
          cases hm
      · intro hk
        subst hk
        exact List.mem_append_left _
          (List.mem_append_right _ (by simp))

theorem moveStep_done (st : AppState) (targetId : Nat) (d : SrcDesc)
    (hok : curOk st d)
    (htl : (lookupE st.store targetId).isSome = true)
    (htgt : targetId ∉ d.allIds)
    (hpo : ∀ p, d.oldP = some p → p ∉ d.allIds ∧ p ≠ targetId) :
    donePost (moveStep st targetId d.srcId).1 targetId
      (moveStep st targetId d.srcId).2 d := by
  obtain ⟨te, hte⟩ := Option.isSome_iff_exists.mp htl
  cases d with
  | leafSrc i op =>
    obtain ⟨⟨e, hl, hkind, hpe⟩, hcnt⟩ := hok
    simp only [SrcDesc.srcId, SrcDesc.allIds, SrcDesc.oldP] at htgt hpo hcnt ⊢
    have htgs : targetId ≠ i := by
      intro h
      rw [h] at htgt
      simp at htgt
    have hpo' : ∀ p, op = some p → p ≠ i ∧ p ≠ targetId := by
      intro p hp
      obtain ⟨h1, h2⟩ := hpo p hp
      exact ⟨by simpa using h1, h2⟩
    obtain ⟨hA, hB, hC1, hC2, hE, hT, hP, hF, hEv⟩ :=
      moveStep_leaf_spec st targetId i op e hl hpe hkind htgs hpo'
    refine ⟨⟨_, hE, rfl, rfl⟩, ⟨_, hT te hte, ?_⟩, ?_, ?_, ?_⟩
    · show i ∈ te.items ++ [i]
      exact List.mem_append_right _ (by simp)
    · intro hop
      simp only [SrcDesc.oldP] at hop
      simp only [hop] at hcnt
      intro hmem2
      rw [hC1 hop] at hmem2
      have h0 : (st.rootFolders.erase i).count i = 0 := by
        rw [List.count_erase_self]
        omega
      exact absurd hmem2 (List.count_eq_zero.mp h0)
    · intro p hp
      simp only [SrcDesc.oldP] at hp
      simp only [hp] at hcnt
      obtain ⟨pe, hpe2, hc⟩ := hcnt
      refine ⟨_, hP p hp pe hpe2, ?_⟩
      show (pe.items.erase i).count i = 0
      rw [List.count_erase_self]
      omega
    · show Event.persist i ∈ (moveStep st targetId i).2
      rw [hEv]
      exact List.mem_append_right _ (by simp)
  | folderSrc t op =>
    obtain ⟨⟨hrep, hh, e, hl, hpe⟩, hcnt⟩ := hok
    simp only [SrcDesc.srcId, SrcDesc.allIds, SrcDesc.oldP] at htgt hpo hcnt ⊢
    obtain ⟨hA, hB, hC1, hC2, hE, hT, hP, hSub, hF, hEv⟩ :=
      moveStep_folder_spec st targetId t op e hl hpe hrep hh htgt hpo
    refine ⟨⟨_, hE, rfl, rfl⟩, ⟨_, hT te hte, ?_⟩, ?_, ?_, ?_⟩
    · show t.rootId ∈ te.folders ++ [t.rootId]
      exact List.mem_append_right _ (by simp)
    · intro hop
      simp only [SrcDesc.oldP] at hop
      simp only [hop] at hcnt
      intro hmem2
      rw [hC1 hop] at hmem2
      have h0 : (st.rootFolders.erase t.rootId).count t.rootId = 0 := by
        rw [List.count_erase_self]
        omega
      exact absurd hmem2 (List.count_eq_zero.mp h0)
    · intro p hp
      simp only [SrcDesc.oldP] at hp
      simp only [hp] at hcnt
      obtain ⟨pe, hpe2, hc⟩ := hcnt
      refine ⟨_, hP p hp pe hpe2, ?_⟩
      show (pe.folders.erase t.rootId).count t.rootId = 0
      rw [List.count_erase_self]
      omega
    · intro j hj
      refine ⟨?_, ?_⟩
      · rw [hEv]
        exact List.mem_append_right _ (List.mem_map.mpr ⟨j, hj, rfl⟩)
      · by_cases hji : j = t.rootId
        · subst hji
          exact ⟨_, hE, rfl⟩
        · have hs := representsB_ids_isSome (st.store.length + 1) t hh st.store
            hrep j hj
          obtain ⟨ej, hej⟩ := Option.isSome_iff_exists.mp hs
          refine ⟨{ ej with path := none }, ?_, rfl⟩
          rw [hSub j hj hji, hej]
          rfl

theorem curOk_step_preserved (st : AppState) (targetId : Nat) (d d' : SrcDesc)
    (hok : curOk st d) (hok' : curOk st d')
    (hsep : ∀ j ∈ d'.allIds, j ∉ d.allIds)
    (hpns : ∀ p, d.oldP = some p → p ∉ d'.allIds)
    (hps : ∀ p, d'.oldP = some p → p ∉ d.allIds ∧ p ≠ targetId)
    (htgt : targetId ∉ d.allIds)
    (htgt' : targetId ∉ d'.allIds)
    (hpo : ∀ p, d.oldP = some p → p ∉ d.allIds ∧ p ≠ targetId) :
    curOk (moveStep st targetId d.srcId).1 d' := by
  obtain ⟨hA, hB, hC1, hC2, hF, hD1, hT, hEv⟩ :=
    moveStep_frame st targetId d hok htgt hpo
  have hs1 : d'.srcId ∉ d.allIds := hsep _ (srcId_mem_allIds d')
  have hs2 : ¬ d'.srcId = targetId := by
    intro h
    have hm := srcId_mem_allIds d'
    rw [h] at hm
    exact htgt' hm
  have hs3 : ∀ p, d.oldP = some p → ¬ d'.srcId = p := by
    intro p hp h
    have hm := srcId_mem_allIds d'
    rw [h] at hm
    exact hpns p hp hm
  have hnd : d'.srcId ≠ d.srcId := by
    intro h
    rw [h] at hs1
    exact hs1 (srcId_mem_allIds d)
  have hsrcEq : lookupE (moveStep st targetId d.srcId).1.store d'.srcId =
      lookupE st.store d'.srcId := hF _ hs1 hs2 hs3
  obtain ⟨hmain', hcnt'⟩ := hok'
  constructor
  · cases d' with
    | leafSrc i' op' =>
      obtain ⟨e', hl', hk', hpe'⟩ := hmain'
      have h1 : lookupE (moveStep st targetId d.srcId).1.store i' =
          lookupE st.store i' := hsrcEq
      exact ⟨e', by rw [h1]; exact hl', hk', hpe'⟩
    | folderSrc t' op' =>
      obtain ⟨hrep', hh', e', hl', hpe'⟩ := hmain'
      have hall : ∀ j ∈ t'.ids,
          lookupE (moveStep st targetId d.srcId).1.store j =
            lookupE st.store j := by
        intro j hj
        have hj1 : j ∉ d.allIds := hsep j hj
        have hj2 : ¬ j = targetId := by
          intro h
          rw [h] at hj
          exact htgt' hj
        have hj3 : ∀ p, d.oldP = some p → ¬ j = p := by
          intro p hp h
          rw [h] at hj
          exact hpns p hp hj
        exact hF j hj1 hj2 hj3
      refine ⟨?_, ?_, e', ?_, hpe'⟩
      · exact representsB_of_shape_eq t'.height t' (le_refl _) st.store
          (moveStep st targetId d.srcId).1.store
          (fun j hj => by rw [hall j hj]) hrep'
      · rw [hA]
        exact hh'
      · have h1 : lookupE (moveStep st targetId d.srcId).1.store t'.rootId =
            lookupE st.store t'.rootId := hsrcEq
        rw [h1]
        exact hl'
  · cases d' with
    | leafSrc i' op' =>
      cases hop' : op' with
      | none =>
        simp only [SrcDesc.srcId, SrcDesc.oldP, hop'] at hcnt'
        show (moveStep st targetId d.srcId).1.rootFolders.count i' ≤ 1
        rw [hC1 i' hnd]
        exact hcnt'
      | some p' =>
        simp only [SrcDesc.srcId, SrcDesc.oldP, hop'] at hcnt'
        obtain ⟨pe, hpe2, hc⟩ := hcnt'
        have hd'p : (SrcDesc.leafSrc i' op').oldP = some p' := by
          simp only [SrcDesc.oldP, hop']
        obtain ⟨hp1, hp2⟩ := hps p' hd'p
        rcases hD1 p' hp1 hp2 with heq | ⟨pe1, hpe1, hnew⟩
        · show ∃ pe', lookupE (moveStep st targetId d.srcId).1.store p' =
              some pe' ∧ pe'.items.count i' ≤ 1
          exact ⟨pe, by rw [heq]; exact hpe2, hc⟩
        · rw [hpe1] at hpe2
          cases Option.some.inj hpe2
          show ∃ pe', lookupE (moveStep st targetId d.srcId).1.store p' =
              some pe' ∧ pe'.items.count i' ≤ 1
          refine ⟨_, hnew, ?_⟩
          cases d with
          | leafSrc i op =>
            have hnd2 : i' ≠ i := hnd
            show (pe.items.erase i).count i' ≤ 1
            rw [List.count_erase_of_ne hnd2]
            exact hc
          | folderSrc t op =>
            show pe.items.count i' ≤ 1
            exact hc
    | folderSrc t' op' =>
      cases hop' : op' with
      | none =>
        simp only [SrcDesc.srcId, SrcDesc.oldP, hop'] at hcnt'
        show (moveStep st targetId d.srcId).1.rootFolders.count t'.rootId ≤ 1
        rw [hC1 t'.rootId hnd]
        exact hcnt'
      | some p' =>
        simp only [SrcDesc.srcId, SrcDesc.oldP, hop'] at hcnt'
        obtain ⟨pe, hpe2, hc⟩ := hcnt'
        have hd'p : (SrcDesc.folderSrc t' op').oldP = some p' := by
          simp only [SrcDesc.oldP, hop']
        obtain ⟨hp1, hp2⟩ := hps p' hd'p
        rcases hD1 p' hp1 hp2 with heq | ⟨pe1, hpe1, hnew⟩
        · show ∃ pe', lookupE (moveStep st targetId d.srcId).1.store p' =
              some pe' ∧ pe'.folders.count t'.rootId ≤ 1
          exact ⟨pe, by rw [heq]; exact hpe2, hc⟩
        · rw [hpe1] at hpe2
          cases Option.some.inj hpe2
          show ∃ pe', lookupE (moveStep st targetId d.srcId).1.store p' =
              some pe' ∧ pe'.folders.count t'.rootId ≤ 1
          refine ⟨_, hnew, ?_⟩
          cases d with
          | leafSrc i op =>
            show pe.folders.count t'.rootId ≤ 1
            exact hc
          | folderSrc t op =>
            have hnd2 : t'.rootId ≠ t.rootId := hnd
            show (pe.folders.erase t.rootId).count t'.rootId ≤ 1
            rw [List.count_erase_of_ne hnd2]
            exact hc

theorem donePost_step_preserved (st : AppState) (targetId : Nat)
    (d d0 : SrcDesc) (evs0 : List Event)
    (hok : curOk st d)
    (hd0 : donePost st targetId evs0 d0)
    (hsep : ∀ j ∈ d0.allIds, j ∉ d.allIds)
    (hpns : ∀ p, d.oldP = some p → p ∉ d0.allIds)
    (hps0 : ∀ p, d0.oldP = some p → p ∉ d.allIds ∧ p ≠ targetId)
    (htgt : targetId ∉ d.allIds)
    (htgt0 : targetId ∉ d0.allIds)
    (hpo : ∀ p, d.oldP = some p → p ∉ d.allIds ∧ p ≠ targetId) :
    donePost (moveStep st targetId d.srcId).1 targetId evs0 d0 := by
  obtain ⟨hA, hB, hC1, hC2, hF, hD1, hT, hEv⟩ :=
    moveStep_frame st targetId d hok htgt hpo
  have hs1 : d0.srcId ∉ d.allIds := hsep _ (srcId_mem_allIds d0)
  have hs2 : ¬ d0.srcId = targetId := by
    intro h
    have hm := srcId_mem_allIds d0
    rw [h] at hm
    exact htgt0 hm
  have hs3 : ∀ p, d.oldP = some p → ¬ d0.srcId = p := by
    intro p hp h
    have hm := srcId_mem_allIds d0
    rw [h] at hm
    exact hpns p hp hm
  have hnd : d0.srcId ≠ d.srcId := by
    intro h
    rw [h] at hs1
    exact hs1 (srcId_mem_allIds d)
  have hsrcEq : lookupE (moveStep st targetId d.srcId).1.store d0.srcId =
      lookupE st.store d0.srcId := hF _ hs1 hs2 hs3
  obtain ⟨⟨e0, he0, hpar0, hpath0⟩, ⟨te0, hte0, hmem0⟩, h3, h4, h5⟩ := hd0
  refine ⟨⟨e0, by rw [hsrcEq]; exact he0, hpar0, hpath0⟩,
    ⟨_, hT te0 hte0, ?_⟩, ?_, ?_, ?_⟩
  · cases d0 with
    | leafSrc i0 op0 =>
      cases d with
      | leafSrc i op =>
        exact List.mem_append_left _ hmem0
      | folderSrc t op =>
        exact hmem0
    | folderSrc t0 op0 =>
      cases d with
      | leafSrc i op =>
        exact hmem0
      | folderSrc t op =>
        exact List.mem_append_left _ hmem0
  · intro hop0
    exact hC2 _ hnd (h3 hop0)
  · intro p0 hp0
    obtain ⟨pe, hpe2, hcnt0⟩ := h4 p0 hp0
    obtain ⟨hp01, hp02⟩ := hps0 p0 hp0
    rcases hD1 p0 hp01 hp02 with heq | ⟨pe1, hpe1, hnew⟩
    · exact ⟨pe, by rw [heq]; exact hpe2, hcnt0⟩
    · rw [hpe1] at hpe2
      cases Option.some.inj hpe2
      refine ⟨_, hnew, ?_⟩
      cases d0 with
      | leafSrc i0 op0 =>
        cases d with
        | leafSrc i op =>
          have hnd2 : i0 ≠ i := hnd
          show (pe.items.erase i).count i0 = 0
          rw [List.count_erase_of_ne hnd2]
          exact hcnt0
        | folderSrc t op =>
          exact hcnt0
      | folderSrc t0 op0 =>
        cases d with
        | leafSrc i op =>
          exact hcnt0
        | folderSrc t op =>
          have hnd2 : t0.rootId ≠ t.rootId := hnd
          show (pe.folders.erase t.rootId).count t0.rootId = 0
          rw [List.count_erase_of_ne hnd2]
          exact hcnt0
  · cases d0 with
    | leafSrc i0 op0 => exact h5
    | folderSrc t0 op0 =>
      intro j hj
      obtain ⟨hev, ej, hej, hpathj⟩ := h5 j hj
      have hj1 : j ∉ d.allIds := hsep j hj
      have hj2 : ¬ j = targetId := by
        intro h
        rw [h] at hj
        exact htgt0 hj
      have hj3 : ∀ p, d.oldP = some p → ¬ j = p := by
        intro p hp h
        rw [h] at hj
        exact hpns p hp hj
      refine ⟨hev, ej, ?_, hpathj⟩
      rw [hF j hj1 hj2 hj3]
      exact hej

theorem moveLoop_post (targetId : Nat) : ∀ (ds : List SrcDesc) (st : AppState),
    (∀ d ∈ ds, curOk st d) →
    (lookupE st.store targetId).isSome = true →
    (∀ d ∈ ds, targetId ∉ d.allIds) →
    (∀ d ∈ ds, ∀ d' ∈ ds, ∀ p, d.oldP = some p →
      p ∉ d'.allIds ∧ p ≠ targetId) →
    List.Pairwise (fun d d' => ∀ j ∈ d.allIds, j ∉ d'.allIds) ds →
    (∀ (d0 : SrcDesc) (evs0 : List Event),
      donePost st targetId evs0 d0 →
      targetId ∉ d0.allIds →
      (∀ d ∈ ds, (∀ j ∈ d0.allIds, j ∉ d.allIds) ∧
        (∀ p, d.oldP = some p → p ∉ d0.allIds) ∧
        (∀ p, d0.oldP = some p → p ∉ d.allIds ∧ p ≠ targetId)) →
      donePost (moveLoop st targetId (ds.map SrcDesc.srcId)).1 targetId
        evs0 d0) ∧
    (∀ d ∈ ds, donePost (moveLoop st targetId (ds.map SrcDesc.srcId)).1
      targetId (moveLoop st targetId (ds.map SrcDesc.srcId)).2 d) ∧
    (∀ k, Event.removeData k ∈ (moveLoop st targetId (ds.map SrcDesc.srcId)).2 ↔
      k ∈ ds.map SrcDesc.srcId) ∧
    (lookupE (moveLoop st targetId (ds.map SrcDesc.srcId)).1.store
      targetId).isSome = true := by
  intro ds
  induction ds with
  | nil =>
    intro st hok htl htgt hpar hpw
    simp only [List.map_nil, moveLoop]
    refine ⟨fun d0 evs0 hd0 _ _ => hd0,
      fun d hd => absurd hd (List.not_mem_nil d), fun k => by simp, htl⟩
  | cons d ds' ih =>
    intro st hok htl htgt hpar hpw
    have hmemd : d ∈ d :: ds' := List.mem_cons_self d ds'
    have hokd := hok d hmemd
    have htgtd := htgt d hmemd
    have hpod : ∀ p, d.oldP = some p → p ∉ d.allIds ∧ p ≠ targetId :=
      fun p hp => hpar d hmemd d hmemd p hp
    obtain ⟨hA, hB, hC1, hC2, hF, hD1, hT, hEv⟩ :=
      moveStep_frame st targetId d hokd htgtd hpod
    obtain ⟨te, hte⟩ := Option.isSome_iff_exists.mp htl
    have htl1 : (lookupE (moveStep st targetId d.srcId).1.store
        targetId).isSome = true := by
      rw [hT te hte]
      rfl
    have hdisj : ∀ d' ∈ ds', ∀ j ∈ d.allIds, j ∉ d'.allIds :=
      (List.pairwise_cons.mp hpw).1
    have hok1 : ∀ d' ∈ ds', curOk (moveStep st targetId d.srcId).1 d' := by
      intro d' hd'
      refine curOk_step_preserved st targetId d d' hokd
        (hok d' (List.mem_cons_of_mem _ hd')) ?_ ?_ ?_ htgtd
        (htgt d' (List.mem_cons_of_mem _ hd')) hpod
      · intro j hj hjd
        exact hdisj d' hd' j hjd hj
      · intro p hp
        exact (hpar d hmemd d' (List.mem_cons_of_mem _ hd') p hp).1
      · intro p hp
        exact hpar d' (List.mem_cons_of_mem _ hd') d hmemd p hp
    obtain ⟨ihPres, ihDone, ihRem, ihTl⟩ :=
      ih (moveStep st targetId d.srcId).1 hok1 htl1
        (fun d' hd' => htgt d' (List.mem_cons_of_mem _ hd'))
        (fun a ha b hb p hp => hpar a (List.mem_cons_of_mem _ ha) b
          (List.mem_cons_of_mem _ hb) p hp)
        (List.pairwise_cons.mp hpw).2
    simp only [List.map_cons, moveLoop]
    refine ⟨?_, ?_, ?_, ihTl⟩
    · intro d0 evs0 hd0 htgt0 hsep0
      have hstep0 : donePost (moveStep st targetId d.srcId).1 targetId evs0 d0 :=
        donePost_step_preserved st targetId d d0 evs0 hokd hd0
          (hsep0 d hmemd).1 (hsep0 d hmemd).2.1 (hsep0 d hmemd).2.2
          htgtd htgt0 hpod
      exact ihPres d0 evs0 hstep0 htgt0
        (fun d' hd' => hsep0 d' (List.mem_cons_of_mem _ hd'))
    · intro a ha
      rcases List.mem_cons.mp ha with ha | ha
      · subst ha
        have hdone1 : donePost (moveStep st targetId a.srcId).1 targetId
            (moveStep st targetId a.srcId).2 a :=
          moveStep_done st targetId a hokd htl htgtd hpod
        have hdone2 := ihPres a (moveStep st targetId a.srcId).2 hdone1 htgtd
          (fun d' hd' => ⟨hdisj d' hd',
            fun p hp => (hpar d' (List.mem_cons_of_mem _ hd') a hmemd p hp).1,
            fun p hp => hpar a hmemd d' (List.mem_cons_of_mem _ hd') p hp⟩)
        exact donePost_mono _ _ _ _ _ hdone2
          (fun ev hev => List.mem_append_left _ hev)
      · have hdone2 := ihDone a ha
        exact donePost_mono _ _ _ _ _ hdone2
          (fun ev hev => List.mem_append_right _ hev)
    · intro k
      rw [List.mem_append, List.mem_cons, hEv k, ihRem k]

theorem descOk_curOk (st : AppState) (d : SrcDesc)
    (h : descOkB st d = true)
    (hh : ∀ t op, d = SrcDesc.folderSrc t op → t.height ≤ st.store.length + 1) :
    curOk st d := by
  cases d with
  | leafSrc i op =>
    simp only [descOkB, SrcDesc.srcId, SrcDesc.oldP, Bool.and_eq_true] at h
    obtain ⟨h1, h2⟩ := h
    constructor
    · cases hl : lookupE st.store i with
      | none =>
        simp only [hl] at h1
        cases h1
      | some e =>
        simp only [hl, Bool.and_eq_true, decide_eq_true_eq] at h1
        exact ⟨e, hl, h1.1, h1.2⟩
    · cases hop : op with
      | none =>
        simp only [hop, decide_eq_true_eq] at h2
        exact h2
      | some p =>
        simp only [hop] at h2
        cases hpl : lookupE st.store p with
        | none =>
          simp only [hpl] at h2
          cases h2
        | some pe =>
          simp only [hpl, decide_eq_true_eq] at h2
          exact ⟨pe, hpl, h2⟩
  | folderSrc t op =>
    simp only [descOkB, SrcDesc.srcId, SrcDesc.oldP, Bool.and_eq_true] at h
    obtain ⟨⟨h1a, h1b⟩, h2⟩ := h
    constructor
    · refine ⟨h1a, hh t op rfl, ?_⟩
      cases hl : lookupE st.store t.rootId with
      | none =>
        simp only [hl] at h1b
        cases h1b
      | some e =>
        simp only [hl, decide_eq_true_eq] at h1b
        exact ⟨e, rfl, h1b⟩
    · cases hop : op with
      | none =>
        simp only [hop, decide_eq_true_eq] at h2
        exact h2
      | some p =>
        simp only [hop] at h2
        cases hpl : lookupE st.store p with
        | none =>
          simp only [hpl] at h2
          cases h2
        | some pe =>
          simp only [hpl, decide_eq_true_eq] at h2
          exact ⟨pe, hpl, h2⟩

/-- Claim C7: `move_items` top-level-filters the dragged sources, and every
filtered source (described by an entry of `ds`) is detached from its old
location — the root folder list or the old parent's child list — and
re-parented under the target folder, ending listed among the target's
children; a moved leaf ends with its path unset and a persist call
recorded; a moved folder ends with its own path and the path of every
descendant folder and leaf cleared, with a persist call recorded for
every subtree entity; and the sources processed (one `remove_data` call
each) are exactly the top-level-filtered ones. -/
theorem move_items_spec (st : AppState) (sel : List Nat) (targetId : Nat)
    (ds : List SrcDesc)
    (hfilter : topLevelFilter st.store sel = ds.map SrcDesc.srcId)
    (hok : ∀ d ∈ ds, descOkB st d = true)
    (hhts : ∀ t op, SrcDesc.folderSrc t op ∈ ds →
      t.height ≤ st.store.length + 1)
    (htl : (lookupE st.store targetId).isSome = true)
    (htgt : ∀ d ∈ ds, targetId ∉ d.allIds)
    (hpar : ∀ d ∈ ds, ∀ d' ∈ ds, ∀ p, d.oldP = some p →
      p ∉ d'.allIds ∧ p ≠ targetId)
    (hpw : List.Pairwise (fun d d' => ∀ j ∈ d.allIds, j ∉ d'.allIds) ds) :
    (∀ d ∈ ds, donePost (move_items st sel targetId).1 targetId
      (move_items st sel targetId).2 d) ∧
    (∀ k, Event.removeData k ∈ (move_items st sel targetId).2 ↔
      k ∈ topLevelFilter st.store sel) := by
  have hokC : ∀ d ∈ ds, curOk st d := by
    intro d hd
    refine descOk_curOk st d (hok d hd) ?_
    intro t op h
    subst h
    exact hhts t op hd
  obtain ⟨hPres, hDone, hRem, hTl⟩ :=
    moveLoop_post targetId ds st hokC htl htgt hpar hpw
  have hmi : move_items st sel targetId =
      ((moveLoop st targetId (ds.map SrcDesc.srcId)).1,
       Event.suspend :: (moveLoop st targetId (ds.map SrcDesc.srcId)).2 ++
         [Event.unsuspend, Event.sortAscending, Event.configAltered true]) := by
    simp only [move_items]
    rw [hfilter]
  constructor
  · intro d hd
    rw [hmi]
    exact donePost_mono _ _ _ _ _ (hDone d hd)
      (fun ev hev => List.mem_append_left _ (List.mem_cons_of_mem _ hev))
  · intro k
    rw [hmi, hfilter]
    show Event.removeData k ∈
        (Event.suspend :: (moveLoop st targetId (ds.map SrcDesc.srcId)).2) ++
          [Event.unsuspend, Event.sortAscending, Event.configAltered true] ↔
      k ∈ ds.map SrcDesc.srcId
    rw [List.mem_append, List.mem_cons]
    constructor
    · intro hk
      rcases hk with (hk | hk) | hk
      · cases hk
      · exact (hRem k).mp hk
      · simp at hk
    · intro hk
      exact Or.inl (Or.inr ((hRem k).mpr hk))

theorem move_items_spec_witness :
    (∀ d ∈ [SrcDesc.folderSrc c7Tree none, SrcDesc.leafSrc 4 (some 5)],
      donePost (move_items c7St [1, 3, 4] 0).1 0
        (move_items c7St [1, 3, 4] 0).2 d) ∧
    (∀ k, Event.removeData k ∈ (move_items c7St [1, 3, 4] 0).2 ↔
      k ∈ topLevelFilter c7St.store [1, 3, 4]) :=
  move_items_spec c7St [1, 3, 4] 0
    [SrcDesc.folderSrc c7Tree none, SrcDesc.leafSrc 4 (some 5)]
    (by decide)
    (by decide)
    (by
      intro t op h
      rcases List.mem_cons.mp h with h | h
      · cases h
        decide
      · rcases List.mem_cons.mp h with h | h
        · cases h
        · exact absurd h (List.not_mem_nil _))
    (by decide)
    (by decide)
    (by
      intro a ha b hb p hp
      rcases List.mem_cons.mp ha with h | ha
      · subst h
        have hp0 : (none : Option Nat) = some p := hp
        cases hp0
      · rcases List.mem_cons.mp ha with h | ha
        · subst h
          have hp' : some 5 = some p := hp
          cases Option.some.inj hp'
          rcases List.mem_cons.mp hb with h | hb
          · subst h
            decide
          · rcases List.mem_cons.mp hb with h | hb
            · subst h
              decide
            · exact absurd hb (List.not_mem_nil _)
        · exact absurd ha (List.not_mem_nil _))
    (by decide)

end AutokeyCentral
